import Mathlib

/-!
# The (n,m) correlating branch predictor of `corr_predictor.cc`

A shallow embedding of `CorrPredictor` (constructor, `lookup`, `updateHistories`,
`update`, `squash`) together with the properties of the four-operation contract.

Conventions of the embedding:

* `unsigned` values are natural numbers; where the C++ arithmetic can wrap, the
  reduction modulo `2^32` is written out (`wrap32`).
* `std::vector` is a `List`; an access outside the vector has no defined result
  and is reported as `Fault.outOfRange`.
* a failed `assert` is reported as `Fault.assertion`.
* the `void*&` record handle is an `Option BPHistory` (`none` is `nullptr`); each
  operation returns the handle as the caller sees it afterwards.
* `BPHistory::newCount` (the debug count of live records) is carried in the
  state, so that `new BPHistory` and `delete history` are visible.
-/

set_option linter.unusedVariables false

namespace CorrPred

/-! ## Data model -/

/-- Reduction of an `unsigned` result to 32 bits. -/
def wrap32 (x : Nat) : Nat := x % 2 ^ 32

/-- Modelled from the spec: gem5's `SatCounter8` (base/sat_counter.hh) is not among
the sources. Section 3 of the specification: a counter of bit-width `bits` whose value
lies in `[0, 2^bits - 1]`; a counter built by `SatCounter8(bits)` starts at `0`. -/
structure SatCounter8 where
  bits : Nat
  counter : Nat
deriving DecidableEq, Repr

namespace SatCounter8

/-- Modelled from the spec: the counter `SatCounter8(bits)`, initial value `0`. -/
def init (bits : Nat) : SatCounter8 := ⟨bits, 0⟩

/-- Modelled from the spec: `increment()`, "value = min(value+1, 2^n-1)". -/
def increment (c : SatCounter8) : SatCounter8 :=
  { c with counter := min (c.counter + 1) (2 ^ c.bits - 1) }

/-- Modelled from the spec: `decrement()`, "value = max(value-1, 0)". -/
def decrement (c : SatCounter8) : SatCounter8 :=
  { c with counter := (max ((c.counter : Int) - 1) 0).toNat }

end SatCounter8

/-- The record `CorrPredictor::BPHistory`. `localHistoryValue` is `none` while the
field has never been written (the record of an unconditional branch). -/
structure BPHistory where
  globalHistoryValue : Nat
  localHistoryValue : Option Nat
  updateLocalPredictor : Bool
deriving DecidableEq, Repr

/-- The parameters read by the constructor: `numThreads` and `instShiftAmt` belong to
the base class `BPredUnit`, the other three to `CorrPredictorParams`. -/
structure CorrPredictorParams where
  numThreads : Nat
  instShiftAmt : Nat
  nLocalPredictors : Nat
  m : Nat
  n : Nat
deriving DecidableEq, Repr

/-- The data members of `CorrPredictor`, with `numThreads` and `instShiftAmt` of the
base class and the static `BPHistory::newCount`. -/
structure CorrPredictor where
  numThreads : Nat
  instShiftAmt : Nat
  nLocalPredictors : Nat
  localPredictors : List (List SatCounter8)
  globalHistory : List Nat
  m : Nat
  n : Nat
  localPredictorThreshold : Nat
  globalHistoryMask : Nat
  addressHashMask : Nat
  newCount : Int
deriving DecidableEq, Repr

/-- The ways an operation can stop without a result. -/
inductive Fault where
  | assertion
  | outOfRange
deriving DecidableEq, Repr

/-- `CorrPredictor::nMax`. -/
def nMax : Nat := 16

/-- `CorrPredictor::mMax`. -/
def mMax : Nat := 16

/-- `CorrPredictor::nLocalPredictorsMax = (1 << 16)`. -/
def nLocalPredictorsMax : Nat := 1 <<< 16

/-! ## Constructor -/

/-- The expression `1 << (x - 1)` on a 32-bit `int`, as a function of the shift count
`k = x - 1`. The count is taken in the integers: whether the operand `x` is signed (so
that `0 - 1` is `-1`) or `unsigned` (so that `0u - 1` wraps to `2^32 - 1`), the C++ shift
has a defined, representable result exactly for a count `0 ≤ k ≤ 30`. -/
def shlOne (k : Int) : Option Nat :=
  if 0 ≤ k ∧ k ≤ 30 then some (1 <<< k.toNat) else none

/-- Integer part of the binary logarithm by repeated halving; `fuel` bounds the number
of halvings and `fuel = x` always suffices (`floorLog2_eq_log2`: it is `Nat.log2 x`). -/
def floorLog2 : Nat → Nat → Nat
  | 0, _ => 0
  | fuel + 1, x => if x < 2 then 0 else floorLog2 fuel (x / 2) + 1

/-- Modelled from the spec: `isPowerOf2` (base/intmath.hh) is not among the sources.
Section 6: "positive integer, must be an exact power of two". -/
def isPowerOf2 (x : Nat) : Bool := decide (0 < x ∧ 2 ^ floorLog2 x x = x)

/-- The expression `static_cast<unsigned>(log2(x))`: the integer part of the binary
logarithm, which exists for `x > 0` only. -/
def log2Unsigned (x : Nat) : Option Nat :=
  if x = 0 then none else some (floorLog2 x x)

/-- The three outcomes of running the constructor. -/
inductive Construction where
  | completed (s : CorrPredictor)
  | fatal (msg : String)
  | undefinedShift
deriving DecidableEq, Repr

/-- The checks of the constructor body, in source order; `none` when all pass. -/
def fatalCheck (nLocalPredictors m n : Nat) : Option String :=
  if !isPowerOf2 nLocalPredictors then
    some "Number of local predictors must be a power of 2!"
  else if nLocalPredictors > nLocalPredictorsMax then
    some "nLocalPredictorsMax cannot be larger than 65536!"
  else if m > mMax then
    some "m cannot be larger than 16!"
  else if n > nMax then
    some "n cannot be larger than 16!"
  else none

/-- `CorrPredictor::CorrPredictor`: the member initialisers first, then the checks of
the body. -/
def construct (params : CorrPredictorParams) : Construction :=
  match shlOne ((params.m : Int) - 1), shlOne ((params.n : Int) - 1),
      (log2Unsigned params.nLocalPredictors).bind
        (fun l => shlOne ((l : Int) - 1)) with
  | some rowSize, some half, some hashSize =>
    let s : CorrPredictor :=
      { numThreads := params.numThreads
        instShiftAmt := params.instShiftAmt
        nLocalPredictors := params.nLocalPredictors
        localPredictors :=
          List.replicate params.nLocalPredictors
            (List.replicate rowSize (SatCounter8.init params.n))
        globalHistory := List.replicate params.numThreads 0
        m := params.m
        n := params.n
        localPredictorThreshold := half - 1
        globalHistoryMask := rowSize - 1
        addressHashMask := hashSize - 1
        newCount := 0 }
    match fatalCheck s.nLocalPredictors s.m s.n with
    | some msg => Construction.fatal msg
    | none => Construction.completed s
  | _, _, _ => Construction.undefinedShift

/-! ## The four operations -/

/-- The row selected by a branch address: `(pc >> instShiftAmt) & addressHashMask`. -/
def rowIndex (s : CorrPredictor) (pc : Nat) : Nat :=
  (pc >>> s.instShiftAmt) &&& s.addressHashMask

/-- The counter `localPredictors[i][j]`, when both indices are inside the table. -/
def counterAt (s : CorrPredictor) (i j : Nat) : Option SatCounter8 :=
  match s.localPredictors[i]? with
  | none => none
  | some row => row[j]?

/-- The value `((h << 1) | taken) & globalHistoryMask` computed on `unsigned`. -/
def shiftIn (s : CorrPredictor) (h : Nat) (taken : Bool) : Nat :=
  (wrap32 (h <<< 1) ||| taken.toNat) &&& s.globalHistoryMask

/-- `CorrPredictor::lookup`: the prediction, the state and the new record handle. -/
def lookup (s : CorrPredictor) (tid pc : Nat) :
    Except Fault (Bool × CorrPredictor × Option BPHistory) :=
  match s.globalHistory[tid]? with
  | none => .error .outOfRange
  | some globalHistoryValue =>
    match counterAt s (rowIndex s pc) globalHistoryValue with
    | none => .error .outOfRange
    | some localPredictorValue =>
      let history : BPHistory :=
        { globalHistoryValue := globalHistoryValue
          localHistoryValue := some localPredictorValue.counter
          updateLocalPredictor := true }
      .ok (decide (localPredictorValue.counter > s.localPredictorThreshold),
           { s with newCount := s.newCount + 1 }, some history)

/-- `CorrPredictor::updateHistories`: the state and the record handle afterwards. -/
def updateHistories (s : CorrPredictor) (tid pc : Nat) (uncond taken : Bool)
    (target : Nat) (bp_history : Option BPHistory) :
    Except Fault (CorrPredictor × Option BPHistory) :=
  if !(uncond || bp_history.isSome) then .error .assertion
  else
    match s.globalHistory[tid]? with
    | none => .error .outOfRange
    | some g =>
      let handle : Option BPHistory :=
        if uncond then
          some { globalHistoryValue := g, localHistoryValue := none,
                 updateLocalPredictor := false }
        else bp_history
      let count : Int := if uncond then s.newCount + 1 else s.newCount
      let histories := s.globalHistory.set tid (shiftIn s g taken)
      .ok ({ s with globalHistory := histories, newCount := count }, handle)

/-- `CorrPredictor::update`: the state and the record handle afterwards. -/
def update (s : CorrPredictor) (tid pc : Nat) (taken : Bool)
    (bp_history : Option BPHistory) (squashed : Bool) (target : Nat) :
    Except Fault (CorrPredictor × Option BPHistory) :=
  match bp_history with
  | none => .error .assertion
  | some history =>
    if squashed then
      if tid < s.globalHistory.length then
        let histories :=
          s.globalHistory.set tid (shiftIn s history.globalHistoryValue taken)
        .ok ({ s with globalHistory := histories }, some history)
      else .error .outOfRange
    else if history.updateLocalPredictor then
      match s.localPredictors[rowIndex s pc]? with
      | none => .error .outOfRange
      | some row =>
        match row[history.globalHistoryValue]? with
        | none => .error .outOfRange
        | some c =>
          let c' := if taken then c.increment else c.decrement
          let table := s.localPredictors.set (rowIndex s pc)
            (row.set history.globalHistoryValue c')
          .ok ({ s with localPredictors := table, newCount := s.newCount - 1 }, none)
    else .ok ({ s with newCount := s.newCount - 1 }, none)

/-- `CorrPredictor::squash`: the state and the record handle afterwards. -/
def squash (s : CorrPredictor) (tid : Nat) (bp_history : Option BPHistory) :
    Except Fault (CorrPredictor × Option BPHistory) :=
  match bp_history with
  | none => .error .assertion
  | some history =>
    if tid < s.globalHistory.length then
      let histories := s.globalHistory.set tid history.globalHistoryValue
      .ok ({ s with globalHistory := histories, newCount := s.newCount - 1 }, none)
    else .error .outOfRange

/-! ## Well-formed states -/

/-- The configuration invariant: what the constructor establishes (parameter ranges,
table dimensions, counter widths, masks) together with the range of the counters and of
the history registers. -/
def WellFormed (s : CorrPredictor) : Prop :=
  (1 ≤ s.m ∧ s.m ≤ mMax) ∧ (1 ≤ s.n ∧ s.n ≤ nMax) ∧
  (isPowerOf2 s.nLocalPredictors = true ∧ 2 ≤ s.nLocalPredictors ∧
    s.nLocalPredictors ≤ nLocalPredictorsMax) ∧
  s.localPredictors.length = s.nLocalPredictors ∧
  (∀ row ∈ s.localPredictors, row.length = 2 ^ (s.m - 1) ∧
    ∀ c ∈ row, c.bits = s.n ∧ c.counter ≤ 2 ^ s.n - 1) ∧
  s.globalHistory.length = s.numThreads ∧
  (∀ g ∈ s.globalHistory, g < 2 ^ (s.m - 1)) ∧
  s.localPredictorThreshold = 2 ^ (s.n - 1) - 1 ∧
  s.globalHistoryMask = 2 ^ (s.m - 1) - 1 ∧
  s.addressHashMask = 2 ^ (floorLog2 s.nLocalPredictors s.nLocalPredictors - 1) - 1

instance (s : CorrPredictor) : Decidable (WellFormed s) := by
  unfold WellFormed
  infer_instance

/-- The state the constructor leaves when it completes, in closed form. -/
def initialState (p : CorrPredictorParams) : CorrPredictor :=
  { numThreads := p.numThreads
    instShiftAmt := p.instShiftAmt
    nLocalPredictors := p.nLocalPredictors
    localPredictors :=
      List.replicate p.nLocalPredictors
        (List.replicate (2 ^ (p.m - 1)) (SatCounter8.init p.n))
    globalHistory := List.replicate p.numThreads 0
    m := p.m
    n := p.n
    localPredictorThreshold := 2 ^ (p.n - 1) - 1
    globalHistoryMask := 2 ^ (p.m - 1) - 1
    addressHashMask := 2 ^ (floorLog2 p.nLocalPredictors p.nLocalPredictors - 1) - 1
    newCount := 0 }

/-- The parameters for which the constructor completes. -/
def Accepted (p : CorrPredictorParams) : Prop :=
  (isPowerOf2 p.nLocalPredictors = true ∧ 2 ≤ p.nLocalPredictors ∧
    p.nLocalPredictors ≤ nLocalPredictorsMax) ∧
  (1 ≤ p.m ∧ p.m ≤ mMax) ∧ (1 ≤ p.n ∧ p.n ≤ nMax)

instance (p : CorrPredictorParams) : Decidable (Accepted p) := by
  unfold Accepted
  infer_instance

/-- The predictor built from `nLocalPredictors = 2`, `m = 3`, `n = 2` with one thread
and `instShiftAmt = 2`. -/
def example232 : CorrPredictor :=
  { numThreads := 1, instShiftAmt := 2, nLocalPredictors := 2,
    localPredictors := List.replicate 2 (List.replicate 4 (SatCounter8.init 2)),
    globalHistory := [0], m := 3, n := 2, localPredictorThreshold := 1,
    globalHistoryMask := 3, addressHashMask := 0, newCount := 0 }

/-- The record `lookup` hands back in `example232` for thread 0. -/
def exampleRecord : BPHistory :=
  { globalHistoryValue := 0, localHistoryValue := some 0, updateLocalPredictor := true }

/-! ## Sequences of calls -/

/-- One call of the four-operation interface, with its arguments. -/
inductive Call where
  | lookup (tid pc : Nat)
  | updateHistories (tid pc : Nat) (uncond taken : Bool) (target : Nat)
      (bp_history : Option BPHistory)
  | update (tid pc : Nat) (taken : Bool) (bp_history : Option BPHistory)
      (squashed : Bool) (target : Nat)
  | squash (tid : Nat) (bp_history : Option BPHistory)
deriving DecidableEq, Repr

namespace Call

/-- The predictor state after one call. -/
def apply (s : CorrPredictor) : Call → Except Fault CorrPredictor
  | .lookup tid pc =>
    match CorrPred.lookup s tid pc with
    | .ok (_, s', _) => .ok s'
    | .error e => .error e
  | .updateHistories tid pc uncond taken target bp_history =>
    match CorrPred.updateHistories s tid pc uncond taken target bp_history with
    | .ok (s', _) => .ok s'
    | .error e => .error e
  | .update tid pc taken bp_history squashed target =>
    match CorrPred.update s tid pc taken bp_history squashed target with
    | .ok (s', _) => .ok s'
    | .error e => .error e
  | .squash tid bp_history =>
    match CorrPred.squash s tid bp_history with
    | .ok (s', _) => .ok s'
    | .error e => .error e

/-- A call of `updateHistories` on thread `tid` whose assertion holds. -/
def isAdvanceOn (tid : Nat) : Call → Bool
  | .updateHistories t _ uncond _ _ bp_history => t == tid && (uncond || bp_history.isSome)
  | _ => false

/-- A call of `lookup` on thread `tid`, or of `updateHistories` on thread `tid` whose
assertion holds. -/
def isSpeculativeOn (tid : Nat) : Call → Bool
  | .lookup t _ => t == tid
  | .updateHistories t _ uncond _ _ bp_history => t == tid && (uncond || bp_history.isSome)
  | _ => false

/-- The outcome bit passed to `updateHistories`. -/
def outcome : Call → Bool
  | .updateHistories _ _ _ taken _ _ => taken
  | _ => false

end Call

/-- The predictor state after a sequence of calls, the first fault stopping the run. -/
def runCalls (s : CorrPredictor) : List Call → Except Fault CorrPredictor
  | [] => .ok s
  | c :: cs =>
    match c.apply s with
    | .ok s' => runCalls s' cs
    | .error e => .error e

/-- The runs from `s0` in which every record passed to `updateHistories` (conditional),
`update` or `squash` was handed out earlier in the run by `lookup` or by `updateHistories`
(unconditional); `recs` collects the records handed out so far. -/
inductive Run (s0 : CorrPredictor) : CorrPredictor → List BPHistory → Prop where
  | start : Run s0 s0 []
  | lookup {s s' : CorrPredictor} {recs : List BPHistory} {tid pc : Nat} {b : Bool}
      {r : BPHistory} :
      Run s0 s recs → tid < s.numThreads →
      CorrPred.lookup s tid pc = .ok (b, s', some r) → Run s0 s' (r :: recs)
  | uncond {s s' : CorrPredictor} {recs : List BPHistory} {tid pc : Nat} {taken : Bool}
      {target : Nat} {h : Option BPHistory} {r : BPHistory} :
      Run s0 s recs → tid < s.numThreads →
      CorrPred.updateHistories s tid pc true taken target h = .ok (s', some r) →
      Run s0 s' (r :: recs)
  | cond {s s' : CorrPredictor} {recs : List BPHistory} {tid pc : Nat} {taken : Bool}
      {target : Nat} {r : BPHistory} {h' : Option BPHistory} :
      Run s0 s recs → tid < s.numThreads → r ∈ recs →
      CorrPred.updateHistories s tid pc false taken target (some r) = .ok (s', h') →
      Run s0 s' recs
  | update {s s' : CorrPredictor} {recs : List BPHistory} {tid pc : Nat}
      {taken squashed : Bool} {target : Nat} {r : BPHistory} {h' : Option BPHistory} :
      Run s0 s recs → tid < s.numThreads → r ∈ recs →
      CorrPred.update s tid pc taken (some r) squashed target = .ok (s', h') →
      Run s0 s' recs
  | squash {s s' : CorrPredictor} {recs : List BPHistory} {tid : Nat} {r : BPHistory}
      {h' : Option BPHistory} :
      Run s0 s recs → tid < s.numThreads → r ∈ recs →
      CorrPred.squash s tid (some r) = .ok (s', h') → Run s0 s' recs

/-- The counters of the table have the configured width and a value in `[0, 2^n - 1]`. -/
def CountersBounded (s : CorrPredictor) : Prop :=
  ∀ row ∈ s.localPredictors, ∀ c ∈ row, c.bits = s.n ∧ c.counter ≤ 2 ^ s.n - 1

/-- The predictor built from `nLocalPredictors = 2`, `m = 1`, `n = 2` with one thread
and `instShiftAmt = 2`. -/
def example212 : CorrPredictor :=
  { numThreads := 1, instShiftAmt := 2, nLocalPredictors := 2,
    localPredictors := List.replicate 2 (List.replicate 1 (SatCounter8.init 2)),
    globalHistory := [0], m := 1, n := 2, localPredictorThreshold := 1,
    globalHistoryMask := 0, addressHashMask := 0, newCount := 0 }

/-- The predictor built from `nLocalPredictors = 2`, `m = 3`, `n = 2` with two threads
and `instShiftAmt = 2`. -/
def example232x2 : CorrPredictor :=
  { numThreads := 2, instShiftAmt := 2, nLocalPredictors := 2,
    localPredictors := List.replicate 2 (List.replicate 4 (SatCounter8.init 2)),
    globalHistory := [0, 0], m := 3, n := 2, localPredictorThreshold := 1,
    globalHistoryMask := 3, addressHashMask := 0, newCount := 0 }

/-- A predictor with a single row (`nLocalPredictors = 1`, `m = 3`, `n = 2`, one thread,
`instShiftAmt = 2`) and the given address mask: the constructor leaves no defined mask for
one row, so the mask is a parameter. -/
def singleRow (mask : Nat) : CorrPredictor :=
  { numThreads := 1, instShiftAmt := 2, nLocalPredictors := 1,
    localPredictors := List.replicate 1 (List.replicate 4 (SatCounter8.init 2)),
    globalHistory := [0], m := 3, n := 2, localPredictorThreshold := 1,
    globalHistoryMask := 3, addressHashMask := mask, newCount := 0 }

/-- The predictor built from `nLocalPredictors = 4`, `m = 3`, `n = 2` with one thread
and `instShiftAmt = 2`. -/
def example432 : CorrPredictor :=
  { numThreads := 1, instShiftAmt := 2, nLocalPredictors := 4,
    localPredictors := List.replicate 4 (List.replicate 4 (SatCounter8.init 2)),
    globalHistory := [0], m := 3, n := 2, localPredictorThreshold := 1,
    globalHistoryMask := 3, addressHashMask := 1, newCount := 0 }

/-- The state of `example232` after one taken resolution of the branch at `0x1000`. -/
def example232Taken : CorrPredictor :=
  { example232 with
    localPredictors :=
      [[⟨2, 1⟩, ⟨2, 0⟩, ⟨2, 0⟩, ⟨2, 0⟩], List.replicate 4 (SatCounter8.init 2)],
    newCount := -1 }

/-- Two unconditional branches on thread 0, the first taken, the second not. -/
def exampleAdvances : List Call :=
  [Call.updateHistories 0 4096 true true 0 none,
   Call.updateHistories 0 4096 true false 0 none]

/-- A later branch on thread 0: its `lookup`, then an unconditional taken branch. -/
def exampleSpeculation : List Call :=
  [Call.lookup 0 8, Call.updateHistories 0 8 true true 0 none]

/-- The calls that bring thread 0 of `example232` to history 2 (taken, taken, not
taken, all unconditional). -/
def exampleWarmUp : List Call :=
  [Call.updateHistories 0 4096 true true 0 none,
   Call.updateHistories 0 4096 true true 0 none,
   Call.updateHistories 0 4096 true false 0 none]

/-- The record `lookup` hands back for thread 0 once its history is 2. -/
def exampleRecordTwo : BPHistory :=
  { globalHistoryValue := 2, localHistoryValue := some 0, updateLocalPredictor := true }

/-- The speculation that follows: the `lookup` of the branch, its own advance (taken)
with the record, and one more unconditional taken branch. -/
def exampleInFlight : List Call :=
  [Call.lookup 0 4096,
   Call.updateHistories 0 4096 false true 0 (some exampleRecordTwo),
   Call.updateHistories 0 4096 true true 0 none]

/-- The state of `example232` after `exampleWarmUp` and `exampleInFlight`: the register of
thread 0 holds 3 while the record of the branch in flight holds 2. -/
def example232Speculated : CorrPredictor :=
  { example232 with globalHistory := [3], newCount := 5 }

/-! ## Arithmetic of the masks -/

theorem pow_floorLog2_of_isPowerOf2 {x : Nat} (h : isPowerOf2 x = true) :
    2 ^ floorLog2 x x = x := by
  simp only [isPowerOf2, decide_eq_true_eq] at h
  exact h.2

theorem wrap_shift_or (h : Nat) (taken : Bool) :
    (wrap32 (h <<< 1) ||| taken.toNat) = 2 * (h % 2 ^ 31) + taken.toNat := by
  have h1 : wrap32 (h <<< 1) = 2 ^ 1 * (h % 2 ^ 31) := by
    simp only [wrap32, Nat.shiftLeft_eq]
    omega
  have hb : taken.toNat < 2 ^ 1 := by cases taken <;> simp
  rw [h1, ← Nat.mul_add_lt_is_or hb]

theorem shiftIn_eq_mod (s : CorrPredictor) (h : Nat) (taken : Bool) (k : Nat)
    (hk : k ≤ 32) (hmask : s.globalHistoryMask = 2 ^ k - 1) :
    shiftIn s h taken = (2 * h + taken.toNat) % 2 ^ k := by
  have hd : 2 ^ k ∣ 2 ^ 32 := Nat.pow_dvd_pow 2 hk
  have e : 2 * (h % 2 ^ 31) + taken.toNat = (2 * h + taken.toNat) % 2 ^ 32 := by
    have hb : taken.toNat < 2 := by cases taken <;> simp
    omega
  unfold shiftIn
  rw [hmask, Nat.and_pow_two_sub_one_eq_mod, wrap_shift_or, e, Nat.mod_mod_of_dvd _ hd]

/-- On a mask of at most 32 bits the wrap of the `unsigned` shift is invisible: the
result is the shift-or-mask expression on unbounded integers. -/
theorem shiftIn_eq (s : CorrPredictor) (h : Nat) (taken : Bool) (k : Nat)
    (hk : k ≤ 32) (hmask : s.globalHistoryMask = 2 ^ k - 1) :
    shiftIn s h taken = ((h <<< 1) ||| taken.toNat) &&& (2 ^ k - 1) := by
  have hb : taken.toNat < 2 ^ 1 := by cases taken <;> simp
  rw [shiftIn_eq_mod s h taken k hk hmask, Nat.and_pow_two_sub_one_eq_mod,
    Nat.shiftLeft_eq, Nat.mul_comm h, ← Nat.mul_add_lt_is_or hb]

theorem shiftIn_lt (s : CorrPredictor) (h : Nat) (taken : Bool) (k : Nat)
    (hk : k ≤ 32) (hmask : s.globalHistoryMask = 2 ^ k - 1) :
    shiftIn s h taken < 2 ^ k := by
  rw [shiftIn_eq_mod s h taken k hk hmask]
  exact Nat.mod_lt _ (Nat.two_pow_pos k)

/-! ## What the constructor produces -/

theorem shlOne_pred_eq_some {x v : Nat} :
    shlOne ((x : Int) - 1) = some v ↔ (1 ≤ x ∧ x ≤ 31) ∧ v = 2 ^ (x - 1) := by
  unfold shlOne
  split
  · rename_i hk
    have e : ((x : Int) - 1).toNat = x - 1 := by omega
    rw [e, Nat.one_shiftLeft]
    constructor
    · intro h
      exact ⟨by omega, (Option.some.inj h).symm⟩
    · rintro ⟨-, rfl⟩
      rfl
  · rename_i hk
    constructor
    · intro h
      cases h
    · rintro ⟨hx, -⟩
      exact absurd (by omega) hk

theorem fatalCheck_eq_none {N m n : Nat} :
    fatalCheck N m n = none ↔
      isPowerOf2 N = true ∧ N ≤ nLocalPredictorsMax ∧ m ≤ mMax ∧ n ≤ nMax := by
  unfold fatalCheck
  split_ifs with h1 h2 h3 h4 <;> simp_all

theorem floorLog2_le_of_isPowerOf2 {N : Nat} (hp : isPowerOf2 N = true)
    (hN : N ≤ nLocalPredictorsMax) : floorLog2 N N ≤ 16 := by
  have h := pow_floorLog2_of_isPowerOf2 hp
  have h16 : nLocalPredictorsMax = 2 ^ 16 := by decide
  rw [h16, ← h] at hN
  exact (Nat.pow_le_pow_iff_right (by decide : 1 < 2)).1 hN

theorem one_le_floorLog2_iff {N : Nat} (hp : isPowerOf2 N = true) :
    1 ≤ floorLog2 N N ↔ 2 ≤ N := by
  have h := pow_floorLog2_of_isPowerOf2 hp
  constructor
  · intro h1
    calc 2 = 2 ^ 1 := rfl
      _ ≤ 2 ^ floorLog2 N N := Nat.pow_le_pow_right (by decide) h1
      _ = N := h
  · intro h2
    rcases Nat.eq_zero_or_pos (floorLog2 N N) with h0 | h0
    · rw [h0] at h
      omega
    · exact h0

/-- The constructor completes exactly on the accepted parameters, and then leaves
`initialState`. -/
theorem construct_completed_iff (p : CorrPredictorParams) (s : CorrPredictor) :
    construct p = .completed s ↔ Accepted p ∧ s = initialState p := by
  unfold construct
  split
  · rename_i rowSize half hashSize hm hn hN
    obtain ⟨hm1, rfl⟩ := shlOne_pred_eq_some.1 hm
    obtain ⟨hn1, rfl⟩ := shlOne_pred_eq_some.1 hn
    simp only [log2Unsigned] at hN
    split at hN
    · cases hN
    rename_i hne
    simp only [Option.some_bind] at hN
    dsimp only
    split
    · rename_i msg hf
      have hnone : ¬ fatalCheck p.nLocalPredictors p.m p.n = none := by simp [hf]
      rw [fatalCheck_eq_none] at hnone
      constructor
      · intro h
        cases h
      · rintro ⟨⟨⟨hp, h2, hle⟩, ⟨-, hmle⟩, ⟨-, hnle⟩⟩, -⟩
        exact absurd ⟨hp, hle, hmle, hnle⟩ hnone
    · rename_i hf
      obtain ⟨hp, hle, hmle, hnle⟩ := fatalCheck_eq_none.1 hf
      have hl16 := floorLog2_le_of_isPowerOf2 hp hle
      obtain ⟨hl1, rfl⟩ := shlOne_pred_eq_some.1 hN
      have h2 := (one_le_floorLog2_iff hp).1 hl1.1
      constructor
      · intro h
        refine ⟨⟨⟨hp, h2, hle⟩, ⟨hm1.1, hmle⟩, ⟨hn1.1, hnle⟩⟩, ?_⟩
        simp only [Construction.completed.injEq] at h
        rw [← h]
        rfl
      · rintro ⟨-, rfl⟩
        rfl
  · rename_i hund
    constructor
    · intro h
      cases h
    · rintro ⟨⟨⟨hp, h2, hle⟩, ⟨hm1, hmle⟩, ⟨hn1, hnle⟩⟩, -⟩
      exfalso
      have hl16 := floorLog2_le_of_isPowerOf2 hp hle
      have hl1 := (one_le_floorLog2_iff hp).2 h2
      have hne : p.nLocalPredictors ≠ 0 := by omega
      simp only [mMax, nMax] at hmle hnle
      refine hund (2 ^ (p.m - 1)) (2 ^ (p.n - 1))
        (2 ^ (floorLog2 p.nLocalPredictors p.nLocalPredictors - 1))
        (shlOne_pred_eq_some.2 ⟨⟨hm1, by omega⟩, rfl⟩)
        (shlOne_pred_eq_some.2 ⟨⟨hn1, by omega⟩, rfl⟩) ?_
      simp only [log2Unsigned, hne, if_false, Option.some_bind]
      exact shlOne_pred_eq_some.2 ⟨⟨hl1, by omega⟩, rfl⟩

theorem initialState_wellFormed (p : CorrPredictorParams) (hp : Accepted p) :
    WellFormed (initialState p) := by
  obtain ⟨hN, hm, hn⟩ := hp
  refine ⟨hm, hn, hN, ?_, ?_, ?_, ?_, rfl, rfl, rfl⟩
  · simp [initialState]
  · intro row hrow
    simp only [initialState, List.mem_replicate] at hrow
    obtain ⟨-, rfl⟩ := hrow
    refine ⟨by simp [initialState], ?_⟩
    intro c hc
    simp only [List.mem_replicate] at hc
    obtain ⟨-, rfl⟩ := hc
    exact ⟨rfl, Nat.zero_le _⟩
  · simp [initialState]
  · intro g hg
    simp only [initialState, List.mem_replicate] at hg
    obtain ⟨-, rfl⟩ := hg
    exact Nat.two_pow_pos _

/-- Every state the constructor completes with is well formed. -/
theorem construct_wellFormed {p : CorrPredictorParams} {s : CorrPredictor}
    (h : construct p = .completed s) : WellFormed s := by
  obtain ⟨hp, rfl⟩ := (construct_completed_iff p s).1 h
  exact initialState_wellFormed p hp

/-! ## Table access in a well-formed state -/

theorem rowIndex_lt (s : CorrPredictor) (hs : WellFormed s) (pc : Nat) :
    rowIndex s pc < s.nLocalPredictors := by
  obtain ⟨-, -, ⟨hp, -, -⟩, -, -, -, -, -, -, hmask⟩ := hs
  have hN := pow_floorLog2_of_isPowerOf2 hp
  unfold rowIndex
  rw [hmask, Nat.and_pow_two_sub_one_eq_mod]
  calc (pc >>> s.instShiftAmt) % 2 ^ (floorLog2 s.nLocalPredictors s.nLocalPredictors - 1)
      < 2 ^ (floorLog2 s.nLocalPredictors s.nLocalPredictors - 1) :=
        Nat.mod_lt _ (Nat.two_pow_pos _)
    _ ≤ 2 ^ floorLog2 s.nLocalPredictors s.nLocalPredictors :=
        Nat.pow_le_pow_right (by decide) (Nat.sub_le _ _)
    _ = s.nLocalPredictors := hN

theorem counterAt_of_lt (s : CorrPredictor) (hs : WellFormed s) {i j : Nat}
    (hi : i < s.nLocalPredictors) (hj : j < 2 ^ (s.m - 1)) :
    ∃ row c, s.localPredictors[i]? = some row ∧ row[j]? = some c ∧
      counterAt s i j = some c ∧ c.bits = s.n ∧ c.counter ≤ 2 ^ s.n - 1 := by
  obtain ⟨-, -, -, hrows, hcols, -, -, -, -, -⟩ := hs
  have hi' : i < s.localPredictors.length := by rw [hrows]; exact hi
  have hrow : s.localPredictors[i]? = some s.localPredictors[i] :=
    List.getElem?_eq_getElem hi'
  obtain ⟨hlen, hc⟩ := hcols _ (List.getElem_mem hi')
  have hj' : j < s.localPredictors[i].length := by rw [hlen]; exact hj
  have hctr : s.localPredictors[i][j]? = some s.localPredictors[i][j] :=
    List.getElem?_eq_getElem hj'
  obtain ⟨hb, hv⟩ := hc _ (List.getElem_mem hj')
  exact ⟨_, _, hrow, hctr, by simp only [counterAt, hrow, hctr], hb, hv⟩

theorem history_of_lt (s : CorrPredictor) (hs : WellFormed s) {tid : Nat}
    (ht : tid < s.numThreads) :
    ∃ g, s.globalHistory[tid]? = some g ∧ g < 2 ^ (s.m - 1) := by
  obtain ⟨-, -, -, -, -, hlen, hh, -, -, -⟩ := hs
  have ht' : tid < s.globalHistory.length := by rw [hlen]; exact ht
  exact ⟨_, List.getElem?_eq_getElem ht', hh _ (List.getElem_mem ht')⟩

/-! ## lookup -/

/-- C1. In a well-formed state and for a thread id below `numThreads`, `lookup` reads
the counter `localPredictors[(pc >> instShiftAmt) & addressHashMask][globalHistory[tid]]`,
predicts taken exactly when its value exceeds `2^(n-1) - 1` (with `n = 2`: values 2 and 3
predict taken, 0 and 1 not taken), and hands back the record with
`globalHistoryValue = globalHistory[tid]`, `localHistoryValue` the counter value and
`updateLocalPredictor = true`. -/
theorem lookup_prediction (s : CorrPredictor) (hs : WellFormed s) (tid pc : Nat)
    (ht : tid < s.numThreads) :
    ∃ g c b s',
      s.globalHistory[tid]? = some g ∧
      counterAt s ((pc >>> s.instShiftAmt) &&& s.addressHashMask) g = some c ∧
      lookup s tid pc =
        .ok (b, s', some { globalHistoryValue := g, localHistoryValue := some c.counter,
                           updateLocalPredictor := true }) ∧
      (b = true ↔ c.counter > 2 ^ (s.n - 1) - 1) ∧
      (s.n = 2 → (b = true ↔ c.counter = 2 ∨ c.counter = 3) ∧
                 (b = false ↔ c.counter = 0 ∨ c.counter = 1)) := by
  obtain ⟨g, hg, hglt⟩ := history_of_lt s hs ht
  obtain ⟨row, c, -, -, hc, -, hv⟩ := counterAt_of_lt s hs (rowIndex_lt s hs pc) hglt
  have hthr : s.localPredictorThreshold = 2 ^ (s.n - 1) - 1 := hs.2.2.2.2.2.2.2.1
  refine ⟨g, c, decide (c.counter > s.localPredictorThreshold),
    { s with newCount := s.newCount + 1 }, hg, hc, ?_, ?_, ?_⟩
  · simp only [lookup, hg, hc]
  · simp [hthr]
  · intro h2
    rw [h2] at hv
    simp only [hthr, h2, decide_eq_true_eq, decide_eq_false_iff_not]
    norm_num at hv ⊢
    omega

/-! ## update, normal resolution -/

theorem table_set_get (tbl : List (List SatCounter8)) (row : List SatCounter8)
    (c : SatCounter8) {i j : Nat} (hi : tbl[i]? = some row) (hj : j < row.length)
    (i' j' : Nat) :
    (match (tbl.set i (row.set j c))[i']? with
      | none => none
      | some r => r[j']?) =
    if i' = i ∧ j' = j then some c
    else (match tbl[i']? with
      | none => none
      | some r => r[j']?) := by
  have hil : i < tbl.length := (List.getElem?_eq_some.1 hi).1
  by_cases h1 : i' = i
  · subst h1
    rw [List.getElem?_set_self hil, hi]
    by_cases h2 : j' = j
    · subst h2
      simp [List.getElem?_set_self hj]
    · simp [h2, List.getElem?_set_ne (Ne.symm h2)]
  · simp [h1, List.getElem?_set_ne (Ne.symm h1)]

/-- C2. A normal (not squashed) resolution with `updateLocalPredictor = true` replaces
the counter at row `(pc >> instShiftAmt) & addressHashMask` and column
`record.globalHistoryValue`, of previous value `v`, by `min(v+1, 2^n-1)` when taken and by
`max(v-1, 0)` when not taken; every other counter and every history register keep their
value. The column is the history stored in the record, whatever the registers hold. -/
theorem update_commit (s : CorrPredictor) (hs : WellFormed s) (tid pc : Nat)
    (taken : Bool) (r : BPHistory) (target : Nat)
    (hr : r.updateLocalPredictor = true)
    (hcol : r.globalHistoryValue < 2 ^ (s.m - 1)) :
    ∃ c c' s' h',
      counterAt s ((pc >>> s.instShiftAmt) &&& s.addressHashMask) r.globalHistoryValue
        = some c ∧
      update s tid pc taken (some r) false target = .ok (s', h') ∧
      counterAt s' ((pc >>> s.instShiftAmt) &&& s.addressHashMask) r.globalHistoryValue
        = some c' ∧
      c'.bits = c.bits ∧
      (taken = true → c'.counter = min (c.counter + 1) (2 ^ s.n - 1)) ∧
      (taken = false → (c'.counter : Int) = max ((c.counter : Int) - 1) 0) ∧
      (∀ i j, ¬ (i = (pc >>> s.instShiftAmt) &&& s.addressHashMask ∧
                 j = r.globalHistoryValue) →
        counterAt s' i j = counterAt s i j) ∧
      s'.globalHistory = s.globalHistory := by
  obtain ⟨row, c, hrow, hcj, hc, hb, hv⟩ :=
    counterAt_of_lt s hs (rowIndex_lt s hs pc) hcol
  have hj : r.globalHistoryValue < row.length := (List.getElem?_eq_some.1 hcj).1
  have key := table_set_get s.localPredictors row
    (if taken then c.increment else c.decrement) hrow hj
  refine ⟨c, if taken then c.increment else c.decrement,
    { s with
      localPredictors := s.localPredictors.set (rowIndex s pc)
        (row.set r.globalHistoryValue (if taken then c.increment else c.decrement)),
      newCount := s.newCount - 1 },
    none, hc, ?_, ?_, ?_, ?_, ?_, ?_, ?_⟩
  · simp only [update, hr, hrow, hcj, Bool.false_eq_true, if_false, if_true]
  · have := key (rowIndex s pc) r.globalHistoryValue
    simpa [counterAt] using this
  · cases taken <;> rfl
  · rintro rfl
    simp [SatCounter8.increment, hb]
  · rintro rfl
    simp only [SatCounter8.decrement, Bool.false_eq_true, if_false]
    omega
  · intro i j hij
    have := key i j
    simp only [rowIndex] at this
    simpa [counterAt, hij] using this
  · rfl

/-! ## The history register -/

theorem historyMask_eq (s : CorrPredictor) (hs : WellFormed s) :
    s.m - 1 ≤ 32 ∧ s.globalHistoryMask = 2 ^ (s.m - 1) - 1 := by
  obtain ⟨⟨-, hm⟩, -, -, -, -, -, -, -, hmask, -⟩ := hs
  simp only [mMax] at hm
  exact ⟨by omega, hmask⟩

theorem threads_eq (s : CorrPredictor) (hs : WellFormed s) :
    s.globalHistory.length = s.numThreads := hs.2.2.2.2.2.1

/-- C4. `squash` leaves `globalHistory[tid]` exactly equal to
`record.globalHistoryValue` (no shift, no outcome bit), leaves the local predictor table
unchanged and leaves the record handle null. -/
theorem squash_rolls_back (s : CorrPredictor) (tid : Nat) (r : BPHistory)
    (ht : tid < s.globalHistory.length) :
    ∃ s',
      squash s tid (some r) = .ok (s', none) ∧
      s'.globalHistory[tid]? = some r.globalHistoryValue ∧
      s'.localPredictors = s.localPredictors := by
  refine ⟨{ s with globalHistory := s.globalHistory.set tid r.globalHistoryValue,
                   newCount := s.newCount - 1 }, ?_, ?_, rfl⟩
  · simp only [squash, ht, if_true]
  · exact List.getElem?_set_self ht

/-- C5. For either branch kind (with a record at hand when the branch is conditional),
`updateHistories` sets `globalHistory[tid]` to `((g << 1) | taken) & (2^(m-1) - 1)`, `g`
being the value of the register before the call, and leaves the local predictor table
unchanged. -/
theorem updateHistories_advances (s : CorrPredictor) (hs : WellFormed s) (tid pc : Nat)
    (uncond taken : Bool) (target : Nat) (h : Option BPHistory)
    (ht : tid < s.numThreads) (hrec : uncond = true ∨ h ≠ none) :
    ∃ g s' h',
      s.globalHistory[tid]? = some g ∧
      updateHistories s tid pc uncond taken target h = .ok (s', h') ∧
      s'.globalHistory[tid]? =
        some (((g <<< 1) ||| taken.toNat) &&& (2 ^ (s.m - 1) - 1)) ∧
      s'.localPredictors = s.localPredictors := by
  obtain ⟨hk, hmask⟩ := historyMask_eq s hs
  obtain ⟨g, hg, -⟩ := history_of_lt s hs ht
  have ht' : tid < s.globalHistory.length := by rw [threads_eq s hs]; exact ht
  have hassert : (!(uncond || h.isSome)) = false := by
    rcases hrec with rfl | hne
    · rfl
    · cases h with
      | none => exact absurd rfl hne
      | some r => simp
  refine ⟨g, { s with globalHistory := s.globalHistory.set tid (shiftIn s g taken),
                      newCount := if uncond then s.newCount + 1 else s.newCount },
    if uncond then some { globalHistoryValue := g, localHistoryValue := none,
                          updateLocalPredictor := false } else h, hg, ?_, ?_, rfl⟩
  · simp only [updateHistories, hassert, hg, Bool.false_eq_true, if_false]
  · rw [← shiftIn_eq s g taken (s.m - 1) hk hmask]
    exact List.getElem?_set_self ht'

/-- C6. With `uncond = true` the record handed back by `updateHistories` is a fresh one
whose `globalHistoryValue` is the value of `globalHistory[tid]` before the advance of this
call and whose `updateLocalPredictor` is false; with `uncond = false` and a record at
hand, the handle and the record are handed back as they were passed in. -/
theorem updateHistories_record (s : CorrPredictor) (tid pc : Nat) (taken : Bool)
    (target : Nat) (ht : tid < s.globalHistory.length) :
    (∀ h : Option BPHistory, ∃ g s' r',
      s.globalHistory[tid]? = some g ∧
      updateHistories s tid pc true taken target h = .ok (s', some r') ∧
      r'.globalHistoryValue = g ∧ r'.updateLocalPredictor = false ∧
      s'.newCount = s.newCount + 1) ∧
    (∀ r : BPHistory, ∃ s',
      updateHistories s tid pc false taken target (some r) = .ok (s', some r) ∧
      s'.newCount = s.newCount) := by
  obtain ⟨g, hg⟩ : ∃ g, s.globalHistory[tid]? = some g :=
    ⟨_, List.getElem?_eq_getElem ht⟩
  constructor
  · intro h
    simp only [updateHistories, hg, Bool.true_or, Bool.not_true, Bool.false_eq_true,
      if_false, if_true]
    exact ⟨g, _, _, rfl, rfl, rfl, rfl, rfl⟩
  · intro r
    simp only [updateHistories, hg, Option.isSome_some, Bool.or_true, Bool.not_true,
      Bool.false_eq_true, if_false]
    exact ⟨_, rfl, rfl⟩

/-! ## Unconditional branches and the table -/

/-- C7. Processing an unconditional branch never mutates the local predictor table:
`updateHistories` with `uncond = true` leaves the table as it was and hands back a record
such that, in any later state `t`, consuming it by `update` (squashed or not) or by
`squash`, with any thread id in range, `pc` and outcome, leaves the table of `t` as it
was; so a table still equal to the one before the `updateHistories` call stays equal to
it. -/
theorem uncond_never_updates_table (s : CorrPredictor) (tid pc : Nat) (taken : Bool)
    (target : Nat) (h : Option BPHistory) (ht : tid < s.globalHistory.length) :
    ∃ s1 r,
      updateHistories s tid pc true taken target h = .ok (s1, some r) ∧
      s1.localPredictors = s.localPredictors ∧
      ∀ (t : CorrPredictor) (tid' pc' : Nat) (taken' : Bool) (target' : Nat),
        tid' < t.globalHistory.length →
        (∃ t' h', update t tid' pc' taken' (some r) false target' = .ok (t', h') ∧
          t'.localPredictors = t.localPredictors ∧
          (t.localPredictors = s.localPredictors →
            t'.localPredictors = s.localPredictors)) ∧
        (∃ t' h', update t tid' pc' taken' (some r) true target' = .ok (t', h') ∧
          t'.localPredictors = t.localPredictors ∧
          (t.localPredictors = s.localPredictors →
            t'.localPredictors = s.localPredictors)) ∧
        (∃ t' h', squash t tid' (some r) = .ok (t', h') ∧
          t'.localPredictors = t.localPredictors ∧
          (t.localPredictors = s.localPredictors →
            t'.localPredictors = s.localPredictors)) := by
  obtain ⟨g, hg⟩ : ∃ g, s.globalHistory[tid]? = some g :=
    ⟨_, List.getElem?_eq_getElem ht⟩
  simp only [updateHistories, hg, Bool.true_or, Bool.not_true, Bool.false_eq_true,
    if_false, if_true]
  refine ⟨_, _, rfl, rfl, ?_⟩
  intro t tid' pc' taken' target' ht'
  refine ⟨?_, ?_, ?_⟩
  · simp only [update, Bool.false_eq_true, if_false]
    exact ⟨_, _, rfl, rfl, fun e => e⟩
  · simp only [update, ht', if_true]
    exact ⟨_, _, rfl, rfl, fun e => e⟩
  · simp only [squash, ht', if_true]
    exact ⟨_, _, rfl, rfl, fun e => e⟩

/-! ## lookup is a pure read -/

/-- C8. `lookup` has no effect on the shared predictor state: the local predictor table
and every history register (and the configuration) are the same after the call; what it
produces is the prediction and the new record. -/
theorem lookup_frame (s : CorrPredictor) (hs : WellFormed s) (tid pc : Nat)
    (ht : tid < s.numThreads) :
    ∃ b s' r,
      lookup s tid pc = .ok (b, s', some r) ∧
      s'.localPredictors = s.localPredictors ∧
      s'.globalHistory = s.globalHistory ∧
      s' = { s with newCount := s.newCount + 1 } := by
  obtain ⟨g, hg, hglt⟩ := history_of_lt s hs ht
  obtain ⟨row, c, -, -, hc, -, -⟩ := counterAt_of_lt s hs (rowIndex_lt s hs pc) hglt
  simp only [lookup, hg, hc]
  exact ⟨_, _, _, rfl, rfl, rfl, rfl⟩

/-! ## Release of the record -/

/-- C9, as stated, fails: after `update` with `squashed = true` on the constructed
predictor `example232` the handle is not null, it still points to the record, and the
count of live records is what it was. -/
theorem update_squashed_keeps_record :
    ∃ s' h', update example232 0 4096 true (some exampleRecord) true 0 = .ok (s', h') ∧
      h' ≠ none ∧ h' = some exampleRecord ∧ s'.newCount = example232.newCount :=
  ⟨_, _, rfl, by decide, rfl, rfl⟩

/-- C9, amended. `update` with `squashed = false` and `squash` release the record they
are given: the handle is null afterwards and the count of live records has dropped by
one. `update` with `squashed = true` keeps the record: the handle and the record are
handed back as they were passed in and the count of live records is unchanged. -/
theorem record_release (s : CorrPredictor) (hs : WellFormed s) (tid pc : Nat)
    (taken : Bool) (r : BPHistory) (target : Nat) (ht : tid < s.numThreads)
    (hcol : r.globalHistoryValue < 2 ^ (s.m - 1)) :
    (∃ s', update s tid pc taken (some r) false target = .ok (s', none) ∧
      s'.newCount = s.newCount - 1) ∧
    (∃ s', squash s tid (some r) = .ok (s', none) ∧ s'.newCount = s.newCount - 1) ∧
    (∃ s', update s tid pc taken (some r) true target = .ok (s', some r) ∧
      s'.newCount = s.newCount) := by
  have ht' : tid < s.globalHistory.length := by rw [threads_eq s hs]; exact ht
  obtain ⟨row, c, hrow, hcj, -, -, -⟩ :=
    counterAt_of_lt s hs (rowIndex_lt s hs pc) hcol
  refine ⟨?_, ?_, ?_⟩
  · cases hr : r.updateLocalPredictor
    · simp only [update, hr, Bool.false_eq_true, if_false]
      exact ⟨_, rfl, rfl⟩
    · simp only [update, hr, hrow, hcj, Bool.false_eq_true, if_false, if_true]
      exact ⟨_, rfl, rfl⟩
  · simp only [squash, ht', if_true]
    exact ⟨_, rfl, rfl⟩
  · simp only [update, ht', if_true]
    exact ⟨_, rfl, rfl⟩

/-! ## Validation of the configuration -/

/-- C10, on the code: with `m = 0` (and `nLocalPredictors = 2`, `n = 2`) none of the
checks of the constructor body fires, and the member initialisers have evaluated
`1 << (m - 1)` outside the range of the shift, so construction is not fatal. The same
holds with `n = 0`, and with `nLocalPredictors = 1` (where `1 << (log2(1) - 1)` is
evaluated). -/
theorem construct_unchecked_not_fatal :
    (fatalCheck 2 0 2 = none ∧
      construct { numThreads := 1, instShiftAmt := 2, nLocalPredictors := 2, m := 0, n := 2 }
        = Construction.undefinedShift) ∧
    (fatalCheck 2 3 0 = none ∧
      construct { numThreads := 1, instShiftAmt := 2, nLocalPredictors := 2, m := 3, n := 0 }
        = Construction.undefinedShift) ∧
    (fatalCheck 1 3 2 = none ∧
      construct { numThreads := 1, instShiftAmt := 2, nLocalPredictors := 1, m := 3, n := 2 }
        = Construction.undefinedShift) := by
  decide

/-! ## The invariant is kept by the four operations -/

theorem wellFormed_of_fields {s s' : CorrPredictor} (hs : WellFormed s)
    (h1 : s'.numThreads = s.numThreads) (h2 : s'.nLocalPredictors = s.nLocalPredictors)
    (h3 : s'.m = s.m) (h4 : s'.n = s.n)
    (h5 : s'.localPredictorThreshold = s.localPredictorThreshold)
    (h6 : s'.globalHistoryMask = s.globalHistoryMask)
    (h7 : s'.addressHashMask = s.addressHashMask)
    (htab : s'.localPredictors.length = s.localPredictors.length ∧
      ∀ row ∈ s'.localPredictors, row.length = 2 ^ (s.m - 1) ∧
        ∀ c ∈ row, c.bits = s.n ∧ c.counter ≤ 2 ^ s.n - 1)
    (hhist : s'.globalHistory.length = s.globalHistory.length ∧
      ∀ g ∈ s'.globalHistory, g < 2 ^ (s.m - 1)) :
    WellFormed s' := by
  obtain ⟨a1, a2, a3, a4, -, a6, -, a8, a9, a10⟩ := hs
  unfold WellFormed
  rw [h1, h2, h3, h4, h5, h6, h7]
  exact ⟨a1, a2, a3, htab.1.trans a4, htab.2, hhist.1.trans a6, hhist.2, a8, a9, a10⟩

theorem history_set_lt (s : CorrPredictor) (hs : WellFormed s) (tid v : Nat)
    (hv : v < 2 ^ (s.m - 1)) :
    (s.globalHistory.set tid v).length = s.globalHistory.length ∧
      ∀ g ∈ s.globalHistory.set tid v, g < 2 ^ (s.m - 1) := by
  refine ⟨List.length_set _ _ _, ?_⟩
  intro g hg
  rcases List.mem_or_eq_of_mem_set hg with h | rfl
  · exact hs.2.2.2.2.2.2.1 g h
  · exact hv

theorem lookup_wellFormed {s s' : CorrPredictor} (hs : WellFormed s) {tid pc : Nat}
    {b : Bool} {h' : Option BPHistory} (h : lookup s tid pc = .ok (b, s', h')) :
    WellFormed s' := by
  unfold lookup at h
  split at h
  · cases h
  · split at h
    · cases h
    · simp only [Except.ok.injEq, Prod.mk.injEq] at h
      obtain ⟨-, rfl, -⟩ := h
      exact wellFormed_of_fields hs rfl rfl rfl rfl rfl rfl rfl
        ⟨rfl, hs.2.2.2.2.1⟩ ⟨rfl, hs.2.2.2.2.2.2.1⟩

theorem updateHistories_wellFormed {s s' : CorrPredictor} (hs : WellFormed s)
    {tid pc : Nat} {uncond taken : Bool} {target : Nat} {h h' : Option BPHistory}
    (e : updateHistories s tid pc uncond taken target h = .ok (s', h')) :
    WellFormed s' := by
  obtain ⟨hk, hmask⟩ := historyMask_eq s hs
  unfold updateHistories at e
  split at e
  · cases e
  · split at e
    · cases e
    · simp only [Except.ok.injEq, Prod.mk.injEq] at e
      obtain ⟨rfl, -⟩ := e
      exact wellFormed_of_fields hs rfl rfl rfl rfl rfl rfl rfl ⟨rfl, hs.2.2.2.2.1⟩
        (history_set_lt s hs _ _ (shiftIn_lt s _ _ _ hk hmask))

theorem squash_wellFormed {s s' : CorrPredictor} (hs : WellFormed s) {tid : Nat}
    {r : BPHistory} {h' : Option BPHistory}
    (hcol : r.globalHistoryValue < 2 ^ (s.m - 1))
    (e : squash s tid (some r) = .ok (s', h')) :
    WellFormed s' := by
  simp only [squash] at e
  split at e
  · simp only [Except.ok.injEq, Prod.mk.injEq] at e
    obtain ⟨rfl, -⟩ := e
    exact wellFormed_of_fields hs rfl rfl rfl rfl rfl rfl rfl ⟨rfl, hs.2.2.2.2.1⟩
      (history_set_lt s hs _ _ hcol)
  · cases e

theorem counter_step_le (c : SatCounter8) (taken : Bool) {n : Nat}
    (hb : c.bits = n) (hv : c.counter ≤ 2 ^ n - 1) :
    (if taken then c.increment else c.decrement).bits = n ∧
      (if taken then c.increment else c.decrement).counter ≤ 2 ^ n - 1 := by
  cases taken
  · simp only [Bool.false_eq_true, if_false, SatCounter8.decrement]
    exact ⟨hb, by omega⟩
  · simp only [if_true, SatCounter8.increment, hb]
    exact ⟨trivial, Nat.min_le_right _ _⟩

theorem update_wellFormed {s s' : CorrPredictor} (hs : WellFormed s) {tid pc : Nat}
    {taken squashed : Bool} {target : Nat} {r : BPHistory} {h' : Option BPHistory}
    (e : update s tid pc taken (some r) squashed target = .ok (s', h')) :
    WellFormed s' := by
  obtain ⟨hk, hmask⟩ := historyMask_eq s hs
  have htab := hs.2.2.2.2.1
  simp only [update] at e
  split at e
  · split at e
    · simp only [Except.ok.injEq, Prod.mk.injEq] at e
      obtain ⟨rfl, -⟩ := e
      exact wellFormed_of_fields hs rfl rfl rfl rfl rfl rfl rfl ⟨rfl, htab⟩
        (history_set_lt s hs _ _ (shiftIn_lt s _ _ _ hk hmask))
    · cases e
  · split at e
    · split at e
      · cases e
      · rename_i row hrow
        split at e
        · cases e
        · rename_i c hc
          simp only [Except.ok.injEq, Prod.mk.injEq] at e
          obtain ⟨rfl, -⟩ := e
          have hrowmem : row ∈ s.localPredictors := List.getElem?_mem hrow
          have hcmem : c ∈ row := List.getElem?_mem hc
          obtain ⟨hlen, hctr⟩ := htab row hrowmem
          obtain ⟨hb, hv⟩ := hctr c hcmem
          refine wellFormed_of_fields hs rfl rfl rfl rfl rfl rfl rfl
            ⟨List.length_set _ _ _, ?_⟩ ⟨rfl, hs.2.2.2.2.2.2.1⟩
          intro row' hrow'
          rcases List.mem_or_eq_of_mem_set hrow' with hmem | rfl
          · exact htab row' hmem
          · refine ⟨by rw [List.length_set]; exact hlen, ?_⟩
            intro c' hc'
            rcases List.mem_or_eq_of_mem_set hc' with hmem | rfl
            · exact hctr c' hmem
            · exact counter_step_le c taken hb hv
    · simp only [Except.ok.injEq, Prod.mk.injEq] at e
      obtain ⟨rfl, -⟩ := e
      exact wellFormed_of_fields hs rfl rfl rfl rfl rfl rfl rfl ⟨rfl, htab⟩
        ⟨rfl, hs.2.2.2.2.2.2.1⟩

/-- The record handed back by `lookup` in a well-formed state names a column of the
table. -/
theorem lookup_record_lt {s s' : CorrPredictor} (hs : WellFormed s) {tid pc : Nat}
    {b : Bool} {r : BPHistory} (h : lookup s tid pc = .ok (b, s', some r)) :
    r.globalHistoryValue < 2 ^ (s.m - 1) := by
  unfold lookup at h
  split at h
  · cases h
  · rename_i g hg
    split at h
    · cases h
    · simp only [Except.ok.injEq, Prod.mk.injEq, Option.some.injEq] at h
      obtain ⟨-, -, rfl⟩ := h
      exact hs.2.2.2.2.2.2.1 g (List.getElem?_mem hg)

/-- The constructor is fatal on a count of local predictors that is not a power of two or
exceeds 65536 and on `m = 17`. -/
theorem construct_fatal_examples :
    construct { numThreads := 1, instShiftAmt := 2, nLocalPredictors := 3, m := 3, n := 2 }
      = Construction.fatal "Number of local predictors must be a power of 2!" ∧
    construct { numThreads := 1, instShiftAmt := 2, nLocalPredictors := 131072, m := 3,
                n := 2 }
      = Construction.fatal "nLocalPredictorsMax cannot be larger than 65536!" ∧
    construct { numThreads := 1, instShiftAmt := 2, nLocalPredictors := 2, m := 17, n := 2 }
      = Construction.fatal "m cannot be larger than 16!" ∧
    construct { numThreads := 1, instShiftAmt := 2, nLocalPredictors := 2, m := 3, n := 17 }
      = Construction.fatal "n cannot be larger than 16!" :=
  ⟨rfl, rfl, rfl, rfl⟩

/-! ## The properties at a concrete predictor -/

theorem construct_example232 :
    construct { numThreads := 1, instShiftAmt := 2, nLocalPredictors := 2, m := 3, n := 2 }
      = Construction.completed example232 := by
  decide

theorem lookup_prediction_witness :
    WellFormed example232 ∧ 0 < example232.numThreads ∧
    ∃ g c b s',
      example232.globalHistory[0]? = some g ∧
      counterAt example232 ((4096 >>> example232.instShiftAmt) &&&
        example232.addressHashMask) g = some c ∧
      lookup example232 0 4096 =
        .ok (b, s', some { globalHistoryValue := g, localHistoryValue := some c.counter,
                           updateLocalPredictor := true }) ∧
      (b = true ↔ c.counter > 2 ^ (example232.n - 1) - 1) ∧
      (example232.n = 2 → (b = true ↔ c.counter = 2 ∨ c.counter = 3) ∧
                 (b = false ↔ c.counter = 0 ∨ c.counter = 1)) :=
  ⟨by decide, by decide, lookup_prediction example232 (by decide) 0 4096 (by decide)⟩

theorem update_commit_witness :
    WellFormed example232 ∧ exampleRecord.updateLocalPredictor = true ∧
    exampleRecord.globalHistoryValue < 2 ^ (example232.m - 1) ∧
    ∃ c c' s' h',
      counterAt example232 ((4096 >>> example232.instShiftAmt) &&&
        example232.addressHashMask) exampleRecord.globalHistoryValue = some c ∧
      update example232 0 4096 true (some exampleRecord) false 0 = .ok (s', h') ∧
      counterAt s' ((4096 >>> example232.instShiftAmt) &&&
        example232.addressHashMask) exampleRecord.globalHistoryValue = some c' ∧
      c'.bits = c.bits ∧
      (true = true → c'.counter = min (c.counter + 1) (2 ^ example232.n - 1)) ∧
      (true = false → (c'.counter : Int) = max ((c.counter : Int) - 1) 0) ∧
      (∀ i j, ¬ (i = (4096 >>> example232.instShiftAmt) &&& example232.addressHashMask ∧
                 j = exampleRecord.globalHistoryValue) →
        counterAt s' i j = counterAt example232 i j) ∧
      s'.globalHistory = example232.globalHistory :=
  ⟨by decide, rfl, by decide,
    update_commit example232 (by decide) 0 4096 true exampleRecord 0 rfl (by decide)⟩

theorem example232Speculated_reached :
    ∃ s2, runCalls example232 exampleWarmUp = .ok s2 ∧
      s2.globalHistory = [2] ∧
      (∃ b s3, lookup s2 0 4096 = .ok (b, s3, some exampleRecordTwo)) ∧
      runCalls s2 exampleInFlight = .ok example232Speculated :=
  ⟨_, rfl, rfl, ⟨_, _, rfl⟩, rfl⟩

theorem squash_rolls_back_witness :
    0 < example232Speculated.globalHistory.length ∧
    example232Speculated.globalHistory[0]? = some 3 ∧
    exampleRecordTwo.globalHistoryValue = 2 ∧
    ∃ s',
      squash example232Speculated 0 (some exampleRecordTwo) = .ok (s', none) ∧
      s'.globalHistory[0]? = some exampleRecordTwo.globalHistoryValue ∧
      s'.localPredictors = example232Speculated.localPredictors :=
  ⟨by decide, rfl, rfl,
    squash_rolls_back example232Speculated 0 exampleRecordTwo (by decide)⟩

theorem updateHistories_advances_witness :
    WellFormed example232 ∧ 0 < example232.numThreads ∧
    (false = true ∨ some exampleRecord ≠ none) ∧
    ∃ g s' h',
      example232.globalHistory[0]? = some g ∧
      updateHistories example232 0 4096 false true 0 (some exampleRecord) = .ok (s', h') ∧
      s'.globalHistory[0]? =
        some (((g <<< 1) ||| true.toNat) &&& (2 ^ (example232.m - 1) - 1)) ∧
      s'.localPredictors = example232.localPredictors :=
  ⟨by decide, by decide, Or.inr (by decide),
    updateHistories_advances example232 (by decide) 0 4096 false true 0
      (some exampleRecord) (by decide) (Or.inr (by decide))⟩

theorem updateHistories_record_witness :
    0 < example232.globalHistory.length ∧
    (∀ h : Option BPHistory, ∃ g s' r',
      example232.globalHistory[0]? = some g ∧
      updateHistories example232 0 4096 true true 0 h = .ok (s', some r') ∧
      r'.globalHistoryValue = g ∧ r'.updateLocalPredictor = false ∧
      s'.newCount = example232.newCount + 1) ∧
    (∀ r : BPHistory, ∃ s',
      updateHistories example232 0 4096 false true 0 (some r) = .ok (s', some r) ∧
      s'.newCount = example232.newCount) :=
  ⟨by decide, updateHistories_record example232 0 4096 true 0 (by decide)⟩

theorem uncond_never_updates_table_witness :
    0 < example232.globalHistory.length ∧
    ∃ s1 r,
      updateHistories example232 0 4096 true true 0 none = .ok (s1, some r) ∧
      s1.localPredictors = example232.localPredictors ∧
      ∀ (t : CorrPredictor) (tid' pc' : Nat) (taken' : Bool) (target' : Nat),
        tid' < t.globalHistory.length →
        (∃ t' h', update t tid' pc' taken' (some r) false target' = .ok (t', h') ∧
          t'.localPredictors = t.localPredictors ∧
          (t.localPredictors = example232.localPredictors →
            t'.localPredictors = example232.localPredictors)) ∧
        (∃ t' h', update t tid' pc' taken' (some r) true target' = .ok (t', h') ∧
          t'.localPredictors = t.localPredictors ∧
          (t.localPredictors = example232.localPredictors →
            t'.localPredictors = example232.localPredictors)) ∧
        (∃ t' h', squash t tid' (some r) = .ok (t', h') ∧
          t'.localPredictors = t.localPredictors ∧
          (t.localPredictors = example232.localPredictors →
            t'.localPredictors = example232.localPredictors)) :=
  ⟨by decide, uncond_never_updates_table example232 0 4096 true 0 none (by decide)⟩

theorem lookup_frame_witness :
    WellFormed example232 ∧ 0 < example232.numThreads ∧
    ∃ b s' r,
      lookup example232 0 4096 = .ok (b, s', some r) ∧
      s'.localPredictors = example232.localPredictors ∧
      s'.globalHistory = example232.globalHistory ∧
      s' = { example232 with newCount := example232.newCount + 1 } :=
  ⟨by decide, by decide, lookup_frame example232 (by decide) 0 4096 (by decide)⟩

theorem record_release_witness :
    WellFormed example232 ∧ 0 < example232.numThreads ∧
    exampleRecord.globalHistoryValue < 2 ^ (example232.m - 1) ∧
    (∃ s', update example232 0 4096 true (some exampleRecord) false 0 = .ok (s', none) ∧
      s'.newCount = example232.newCount - 1) ∧
    (∃ s', squash example232 0 (some exampleRecord) = .ok (s', none) ∧
      s'.newCount = example232.newCount - 1) ∧
    (∃ s', update example232 0 4096 true (some exampleRecord) true 0
        = .ok (s', some exampleRecord) ∧
      s'.newCount = example232.newCount) :=
  ⟨by decide, by decide, by decide,
    record_release example232 (by decide) 0 4096 true exampleRecord 0 (by decide)
      (by decide)⟩

theorem floorLog2_eq_log2 (fuel x : Nat) (h : x ≤ fuel) : floorLog2 fuel x = Nat.log2 x := by
  induction fuel generalizing x with
  | zero =>
    have hx : x = 0 := by omega
    subst hx
    rw [Nat.log2]
    rfl
  | succ k ih =>
    rw [Nat.log2]
    unfold floorLog2
    by_cases h2 : x < 2
    · have : ¬ x ≥ 2 := by omega
      simp [h2, this]
    · have : x ≥ 2 := by omega
      simp only [h2, this, if_false, if_true]
      rw [ih (x / 2) (by omega)]

theorem construct_example212 :
    construct { numThreads := 1, instShiftAmt := 2, nLocalPredictors := 2, m := 1, n := 2 }
      = Construction.completed example212 := by
  decide

theorem construct_example232x2 :
    construct { numThreads := 2, instShiftAmt := 2, nLocalPredictors := 2, m := 3, n := 2 }
      = Construction.completed example232x2 := by
  decide

/-! ## The result of each operation in closed form -/

theorem assert_holds {uncond : Bool} {h : Option BPHistory}
    (hrec : uncond = true ∨ h ≠ none) : (!(uncond || h.isSome)) = false := by
  rcases hrec with rfl | hne
  · rfl
  · cases h with
    | none => exact absurd rfl hne
    | some r => simp

theorem lookup_ok_form {s s' : CorrPredictor} {tid pc : Nat} {b : Bool}
    {h' : Option BPHistory} (e : lookup s tid pc = .ok (b, s', h')) :
    s' = { s with newCount := s.newCount + 1 } := by
  unfold lookup at e
  split at e
  · cases e
  · split at e
    · cases e
    · simp only [Except.ok.injEq, Prod.mk.injEq] at e
      exact e.2.1.symm

theorem updateHistories_eq (s : CorrPredictor) (tid pc : Nat) (uncond taken : Bool)
    (target : Nat) (h : Option BPHistory) {g : Nat} (hg : s.globalHistory[tid]? = some g)
    (hrec : uncond = true ∨ h ≠ none) :
    updateHistories s tid pc uncond taken target h =
      .ok ({ s with globalHistory := s.globalHistory.set tid (shiftIn s g taken),
                    newCount := if uncond then s.newCount + 1 else s.newCount },
           if uncond then some { globalHistoryValue := g, localHistoryValue := none,
                                 updateLocalPredictor := false } else h) := by
  simp only [updateHistories, assert_holds hrec, hg, Bool.false_eq_true, if_false]

theorem updateHistories_ok_form {s s' : CorrPredictor} {tid pc : Nat}
    {uncond taken : Bool} {target : Nat} {h h' : Option BPHistory}
    (e : updateHistories s tid pc uncond taken target h = .ok (s', h')) :
    ∃ g, s.globalHistory[tid]? = some g ∧
      s'.globalHistory = s.globalHistory.set tid (shiftIn s g taken) ∧
      s'.localPredictors = s.localPredictors := by
  unfold updateHistories at e
  split at e
  · cases e
  · split at e
    · cases e
    · rename_i g hg
      simp only [Except.ok.injEq, Prod.mk.injEq] at e
      obtain ⟨rfl, -⟩ := e
      exact ⟨g, hg, rfl, rfl⟩

theorem update_ok_form {s s' : CorrPredictor} {tid pc : Nat} {taken squashed : Bool}
    {target : Nat} {h h' : Option BPHistory}
    (e : update s tid pc taken h squashed target = .ok (s', h')) :
    ∃ r, h = some r ∧
      (squashed = true →
        s'.globalHistory = s.globalHistory.set tid (shiftIn s r.globalHistoryValue taken) ∧
        s'.localPredictors = s.localPredictors) ∧
      (squashed = false → s'.globalHistory = s.globalHistory) := by
  unfold update at e
  split at e
  · cases e
  · rename_i r
    refine ⟨r, rfl, ?_, ?_⟩
    · rintro rfl
      simp only [if_true] at e
      split at e
      · simp only [Except.ok.injEq, Prod.mk.injEq] at e
        obtain ⟨rfl, -⟩ := e
        exact ⟨rfl, rfl⟩
      · cases e
    · rintro rfl
      simp only [Bool.false_eq_true, if_false] at e
      split at e
      · split at e
        · cases e
        · split at e
          · cases e
          · simp only [Except.ok.injEq, Prod.mk.injEq] at e
            obtain ⟨rfl, -⟩ := e
            rfl
      · simp only [Except.ok.injEq, Prod.mk.injEq] at e
        obtain ⟨rfl, -⟩ := e
        rfl

theorem squash_ok_form {s s' : CorrPredictor} {tid : Nat} {h h' : Option BPHistory}
    (e : squash s tid h = .ok (s', h')) :
    ∃ r, h = some r ∧
      s'.globalHistory = s.globalHistory.set tid r.globalHistoryValue ∧
      s'.localPredictors = s.localPredictors := by
  unfold squash at e
  split at e
  · cases e
  · rename_i r
    split at e
    · simp only [Except.ok.injEq, Prod.mk.injEq] at e
      obtain ⟨rfl, -⟩ := e
      exact ⟨r, rfl, rfl, rfl⟩
    · cases e

/-! ## Range of the history register -/

/-- C11. For `m` in `[1,16]`, whatever value the register of the thread holds and whatever
the outcome bit, the value `updateHistories` leaves in the register lies in
`[0, 2^(m-1) - 1]`. -/
theorem advance_in_range (s : CorrPredictor) (tid pc : Nat) (uncond taken : Bool)
    (target : Nat) (h : Option BPHistory)
    (hm : 1 ≤ s.m ∧ s.m ≤ 16) (hmask : s.globalHistoryMask = 2 ^ (s.m - 1) - 1)
    (ht : tid < s.globalHistory.length) (hrec : uncond = true ∨ h ≠ none) :
    ∃ s' h' v,
      updateHistories s tid pc uncond taken target h = .ok (s', h') ∧
      s'.globalHistory[tid]? = some v ∧ 0 ≤ v ∧ v ≤ 2 ^ (s.m - 1) - 1 := by
  obtain ⟨g, hg⟩ : ∃ g, s.globalHistory[tid]? = some g :=
    ⟨_, List.getElem?_eq_getElem ht⟩
  have hlt := shiftIn_lt s g taken (s.m - 1) (by omega) hmask
  refine ⟨_, _, shiftIn s g taken, updateHistories_eq s tid pc uncond taken target h hg hrec,
    List.getElem?_set_self ht, Nat.zero_le _, by omega⟩

/-! ## Range of the counters along a run -/

theorem countersBounded_of_table {s s' : CorrPredictor} (hs : CountersBounded s)
    (hn : s'.n = s.n) (htab : s'.localPredictors = s.localPredictors) :
    CountersBounded s' := by
  unfold CountersBounded
  rw [hn, htab]
  exact hs

theorem countersBounded_apply {s s' : CorrPredictor} (hs : CountersBounded s) (c : Call)
    (e : c.apply s = .ok s') : CountersBounded s' ∧ s'.n = s.n := by
  cases c with
  | lookup tid pc =>
    simp only [Call.apply] at e
    split at e
    · rename_i b s1 h1 hl
      simp only [Except.ok.injEq] at e
      subst e
      rw [lookup_ok_form hl]
      exact ⟨countersBounded_of_table hs rfl rfl, rfl⟩
    · cases e
  | updateHistories tid pc uncond taken target h =>
    simp only [Call.apply] at e
    split at e
    · rename_i s1 h1 hl
      simp only [Except.ok.injEq] at e
      subst e
      unfold CorrPred.updateHistories at hl
      split at hl
      · cases hl
      · split at hl
        · cases hl
        · simp only [Except.ok.injEq, Prod.mk.injEq] at hl
          obtain ⟨rfl, -⟩ := hl
          exact ⟨countersBounded_of_table hs rfl rfl, rfl⟩
    · cases e
  | squash tid h =>
    simp only [Call.apply] at e
    split at e
    · rename_i s1 h1 hl
      simp only [Except.ok.injEq] at e
      subst e
      unfold CorrPred.squash at hl
      split at hl
      · cases hl
      · split at hl
        · simp only [Except.ok.injEq, Prod.mk.injEq] at hl
          obtain ⟨rfl, -⟩ := hl
          exact ⟨countersBounded_of_table hs rfl rfl, rfl⟩
        · cases hl
    · cases e
  | update tid pc taken h squashed target =>
    simp only [Call.apply] at e
    split at e
    · rename_i s1 h1 hl
      simp only [Except.ok.injEq] at e
      subst e
      unfold CorrPred.update at hl
      split at hl
      · cases hl
      · split at hl
        · split at hl
          · simp only [Except.ok.injEq, Prod.mk.injEq] at hl
            obtain ⟨rfl, -⟩ := hl
            exact ⟨countersBounded_of_table hs rfl rfl, rfl⟩
          · cases hl
        · split at hl
          · split at hl
            · cases hl
            · rename_i row hrow
              split at hl
              · cases hl
              · rename_i c hc
                simp only [Except.ok.injEq, Prod.mk.injEq] at hl
                obtain ⟨rfl, -⟩ := hl
                refine ⟨?_, rfl⟩
                have hrowmem : row ∈ s.localPredictors := List.getElem?_mem hrow
                have hcmem : c ∈ row := List.getElem?_mem hc
                obtain ⟨hb, hv⟩ := hs row hrowmem c hcmem
                intro row' hrow' c' hc'
                rcases List.mem_or_eq_of_mem_set hrow' with hmem | rfl
                · exact hs row' hmem c' hc'
                · rcases List.mem_or_eq_of_mem_set hc' with hmem | rfl
                  · exact hs row hrowmem c' hmem
                  · exact counter_step_le c taken hb hv
          · simp only [Except.ok.injEq, Prod.mk.injEq] at hl
            obtain ⟨rfl, -⟩ := hl
            exact ⟨countersBounded_of_table hs rfl rfl, rfl⟩
    · cases e

theorem countersBounded_runCalls (cs : List Call) :
    ∀ {s s' : CorrPredictor}, CountersBounded s → runCalls s cs = .ok s' →
      CountersBounded s' ∧ s'.n = s.n := by
  induction cs with
  | nil =>
    intro s s' hs e
    simp only [runCalls, Except.ok.injEq] at e
    subst e
    exact ⟨hs, rfl⟩
  | cons c cs ih =>
    intro s s' hs e
    simp only [runCalls] at e
    split at e
    · rename_i s1 h1
      obtain ⟨hb1, hn1⟩ := countersBounded_apply hs c h1
      obtain ⟨hb2, hn2⟩ := ih hb1 e
      exact ⟨hb2, hn2.trans hn1⟩
    · cases e

theorem counterAt_mem {s : CorrPredictor} {i j : Nat} {c : SatCounter8}
    (h : counterAt s i j = some c) : ∃ row ∈ s.localPredictors, c ∈ row := by
  unfold counterAt at h
  split at h
  · cases h
  · rename_i row hrow
    exact ⟨row, List.getElem?_mem hrow, List.getElem?_mem h⟩

/-- C12. Along every sequence of `lookup`, `updateHistories`, `update` and `squash`
calls applied to a freshly constructed predictor (so `n` is in `[1,16]`), every counter of
the table holds a value in `[0, 2^n - 1]` after each call. With `n = 2`, three not-taken
resolutions of a counter at 0 leave it at 0 and five taken resolutions of a counter at 0
leave it at 3. -/
theorem counters_stay_in_range (p : CorrPredictorParams) (s0 s : CorrPredictor)
    (cs : List Call) (h0 : construct p = .completed s0) (hrun : runCalls s0 cs = .ok s) :
    ((1 ≤ s.n ∧ s.n ≤ 16) ∧
      ∀ i j c, counterAt s i j = some c → 0 ≤ c.counter ∧ c.counter ≤ 2 ^ s.n - 1) ∧
    (∃ s3, runCalls example232
        (List.replicate 3 (Call.update 0 4096 false (some exampleRecord) false 0)) = .ok s3 ∧
      counterAt example232 0 0 = some { bits := 2, counter := 0 } ∧
      counterAt s3 0 0 = some { bits := 2, counter := 0 }) ∧
    (∃ s5, runCalls example232
        (List.replicate 5 (Call.update 0 4096 true (some exampleRecord) false 0)) = .ok s5 ∧
      counterAt s5 0 0 = some { bits := 2, counter := 3 }) := by
  have hwf := construct_wellFormed h0
  have hb0 : CountersBounded s0 := fun row hrow c hc => (hwf.2.2.2.2.1 row hrow).2 c hc
  obtain ⟨hb, hn⟩ := countersBounded_runCalls cs hb0 hrun
  have hn0 : 1 ≤ s0.n ∧ s0.n ≤ 16 := hwf.2.1
  refine ⟨⟨by rw [hn]; exact hn0, ?_⟩, ⟨_, rfl, rfl, rfl⟩, ⟨_, rfl, rfl⟩⟩
  intro i j c hc
  obtain ⟨row, hrow, hmem⟩ := counterAt_mem hc
  exact ⟨Nat.zero_le _, (hb row hrow c hmem).2⟩

/-! ## The scenario of the specification -/

/-- C13. End-to-end scenario on the predictor constructed with `nLocalPredictors = 2`,
`m = 3`, `n = 2` (histories 0, counters 0), thread 0, `pc = 0x1000`: `lookup` returns
false with record (history 0, update flag true); `updateHistories` (conditional, taken)
makes `globalHistory[0] = 1`; `update` (taken, not squashed) makes the counter at row 0,
column 0 equal to 1; the next `lookup` at the same `pc` reads the counter at row 0, column
1, which is 0, and returns false. -/
theorem end_to_end_scenario :
    ∃ s0 s1 r s2 h2 s3 h3 s4 r4,
      construct { numThreads := 1, instShiftAmt := 2, nLocalPredictors := 2, m := 3, n := 2 }
        = Construction.completed s0 ∧
      s0.globalHistory = [0] ∧
      (∀ i j c, counterAt s0 i j = some c → c.counter = 0) ∧
      lookup s0 0 0x1000 = .ok (false, s1, some r) ∧
      r.globalHistoryValue = 0 ∧ r.updateLocalPredictor = true ∧
      updateHistories s1 0 0x1000 false true 0 (some r) = .ok (s2, h2) ∧
      s2.globalHistory[0]? = some 1 ∧
      update s2 0 0x1000 true h2 false 0 = .ok (s3, h3) ∧
      counterAt s3 0 0 = some { bits := 2, counter := 1 } ∧
      s3.globalHistory[0]? = some 1 ∧
      (0x1000 >>> s3.instShiftAmt) &&& s3.addressHashMask = 0 ∧
      counterAt s3 0 1 = some { bits := 2, counter := 0 } ∧
      lookup s3 0 0x1000 = .ok (false, s4, some r4) ∧
      r4.globalHistoryValue = 1 ∧ r4.localHistoryValue = some 0 := by
  refine ⟨example232, _, _, _, _, _, _, _, _, construct_example232, rfl, ?_, rfl, rfl, rfl,
    rfl, rfl, rfl, rfl, rfl, rfl, rfl, rfl, rfl, rfl⟩
  intro i j c hc
  obtain ⟨row, hrow, hmem⟩ := counterAt_mem hc
  simp only [example232, List.mem_replicate] at hrow
  obtain ⟨-, rfl⟩ := hrow
  simp only [List.mem_replicate] at hmem
  obtain ⟨-, rfl⟩ := hmem
  rfl

/-! ## Assertions on the record -/

theorem record_release_aux (s : CorrPredictor) (hs : WellFormed s) (tid pc : Nat)
    (taken : Bool) (r : BPHistory) (target : Nat)
    (hcol : r.globalHistoryValue < 2 ^ (s.m - 1)) :
    ∃ s', update s tid pc taken (some r) false target = .ok (s', none) ∧
      s'.newCount = s.newCount - 1 ∧ s'.globalHistory = s.globalHistory := by
  obtain ⟨row, c, hrow, hcj, -, -, -⟩ :=
    counterAt_of_lt s hs (rowIndex_lt s hs pc) hcol
  cases hr : r.updateLocalPredictor
  · simp only [update, hr, Bool.false_eq_true, if_false]
    exact ⟨_, rfl, rfl, rfl⟩
  · simp only [update, hr, hrow, hcj, Bool.false_eq_true, if_false, if_true]
    exact ⟨_, rfl, rfl, rfl⟩

theorem squash_eq (s : CorrPredictor) {tid : Nat} (r : BPHistory)
    (ht : tid < s.globalHistory.length) :
    squash s tid (some r) =
      .ok ({ s with globalHistory := s.globalHistory.set tid r.globalHistoryValue,
                    newCount := s.newCount - 1 }, none) := by
  simp only [squash, ht, if_true]

theorem update_squashed_eq (s : CorrPredictor) {tid : Nat} (pc : Nat) (taken : Bool)
    (r : BPHistory) (target : Nat) (ht : tid < s.globalHistory.length) :
    update s tid pc taken (some r) true target =
      .ok ({ s with globalHistory :=
               s.globalHistory.set tid (shiftIn s r.globalHistoryValue taken) }, some r) := by
  simp only [update, ht, if_true]

/-- In a well-formed state, with a thread id below `numThreads` and a record whose
history value names a column, the three record-consuming operations return. -/
theorem operations_return (s : CorrPredictor) (hs : WellFormed s) (tid pc : Nat)
    (taken squashed : Bool) (target : Nat) (r : BPHistory) (ht : tid < s.numThreads)
    (hcol : r.globalHistoryValue < 2 ^ (s.m - 1)) :
    (∃ s' h', update s tid pc taken (some r) squashed target = .ok (s', h')) ∧
    (∃ s' h', squash s tid (some r) = .ok (s', h')) ∧
    (∃ s' h', updateHistories s tid pc false taken target (some r) = .ok (s', h')) ∧
    (∀ h, ∃ s' h', updateHistories s tid pc true taken target h = .ok (s', h')) := by
  have ht' : tid < s.globalHistory.length := by rw [threads_eq s hs]; exact ht
  obtain ⟨g, hg, -⟩ := history_of_lt s hs ht
  refine ⟨?_, ⟨_, _, squash_eq s r ht'⟩,
    ⟨_, _, updateHistories_eq s tid pc false taken target (some r) hg (Or.inr (by simp))⟩,
    fun h => ⟨_, _, updateHistories_eq s tid pc true taken target h hg (Or.inl rfl)⟩⟩
  cases squashed
  · obtain ⟨s', hs', -⟩ := (record_release_aux s hs tid pc taken r target hcol)
    exact ⟨s', none, hs'⟩
  · exact ⟨_, _, update_squashed_eq s pc taken r target ht'⟩

/-- C14. A missing record is asserted, not recovered: `update` and `squash` with a null
record, and `updateHistories` with `uncond = false` and a null record, stop at their
assertion, so that no counter and no history register is written. Conversely, in a
well-formed state, with a thread id below `numThreads` and a record whose history value
is below `2^(m-1)` (or with `uncond = true` for `updateHistories`), none of the three
operations fails. -/
theorem null_record_asserted (s : CorrPredictor) (hs : WellFormed s) (tid pc : Nat)
    (taken squashed : Bool) (target : Nat) (r : BPHistory) (ht : tid < s.numThreads)
    (hcol : r.globalHistoryValue < 2 ^ (s.m - 1)) :
    update s tid pc taken none squashed target = .error .assertion ∧
    squash s tid none = .error .assertion ∧
    updateHistories s tid pc false taken target none = .error .assertion ∧
    (∃ s' h', update s tid pc taken (some r) squashed target = .ok (s', h')) ∧
    (∃ s' h', squash s tid (some r) = .ok (s', h')) ∧
    (∃ s' h', updateHistories s tid pc false taken target (some r) = .ok (s', h')) ∧
    (∀ h, ∃ s' h', updateHistories s tid pc true taken target h = .ok (s', h')) := by
  have hnull1 : update s tid pc taken none squashed target = .error .assertion := by
    simp only [update]
  have hnull2 : squash s tid none = .error .assertion := by
    simp only [squash]
  have hnull3 : updateHistories s tid pc false taken target none = .error .assertion := by
    simp [updateHistories]
  exact ⟨hnull1, hnull2, hnull3,
    operations_return s hs tid pc taken squashed target r ht hcol⟩

/-! ## One history register per thread -/

/-- C15. The history registers are per thread: for two distinct thread ids `t` and `t'`,
each of `lookup`, `updateHistories`, `update` (squashed or not) and `squash` called with
thread id `t` leaves `globalHistory[t']` as it was, whatever the `pc`, outcome and record
passed; and in a well-formed state these calls do return (for `t` below `numThreads` and
a record whose history value names a column). -/
theorem other_threads_untouched (s : CorrPredictor) (hs : WellFormed s) (t t' : Nat)
    (ht : t < s.numThreads) (hne : t ≠ t') :
    (∀ pc b s' h', lookup s t pc = .ok (b, s', h') →
      s'.globalHistory[t']? = s.globalHistory[t']?) ∧
    (∀ pc uncond taken target h s' h',
      updateHistories s t pc uncond taken target h = .ok (s', h') →
      s'.globalHistory[t']? = s.globalHistory[t']?) ∧
    (∀ pc taken h squashed target s' h',
      update s t pc taken h squashed target = .ok (s', h') →
      s'.globalHistory[t']? = s.globalHistory[t']?) ∧
    (∀ h s' h', squash s t h = .ok (s', h') →
      s'.globalHistory[t']? = s.globalHistory[t']?) ∧
    (∀ pc taken squashed target r, r.globalHistoryValue < 2 ^ (s.m - 1) →
      (∃ b s' h', lookup s t pc = .ok (b, s', h')) ∧
      (∃ s' h', updateHistories s t pc false taken target (some r) = .ok (s', h')) ∧
      (∃ s' h', updateHistories s t pc true taken target none = .ok (s', h')) ∧
      (∃ s' h', update s t pc taken (some r) squashed target = .ok (s', h')) ∧
      (∃ s' h', squash s t (some r) = .ok (s', h'))) := by
  refine ⟨?_, ?_, ?_, ?_, ?_⟩
  · intro pc b s' h' e
    rw [lookup_ok_form e]
  · intro pc uncond taken target h s' h' e
    obtain ⟨g, -, hgh, -⟩ := updateHistories_ok_form e
    rw [hgh, List.getElem?_set_ne hne]
  · intro pc taken h squashed target s' h' e
    obtain ⟨r, -, h1, h2⟩ := update_ok_form e
    cases squashed
    · rw [h2 rfl]
    · rw [(h1 rfl).1, List.getElem?_set_ne hne]
  · intro h s' h' e
    obtain ⟨r, -, hgh, -⟩ := squash_ok_form e
    rw [hgh, List.getElem?_set_ne hne]
  · intro pc taken squashed target r hcol
    obtain ⟨b, s', r', hl, -⟩ := lookup_frame s hs t pc ht
    obtain ⟨h4, h5, h6, h7⟩ :=
      operations_return s hs t pc taken squashed target r ht hcol
    exact ⟨⟨b, s', some r', hl⟩, h6, h7 none, h4, h5⟩

/-! ## Rollback and replay in one step -/

theorem step_testBit (v : Nat) (b : Bool) (k i : Nat) :
    ((2 * v + b.toNat) % 2 ^ k).testBit i =
      (decide (i < k) && (if i = 0 then b else v.testBit (i - 1))) := by
  rw [Nat.testBit_mod_two_pow]
  congr 1
  cases i with
  | zero =>
    rw [Nat.testBit_zero]
    cases b
    · simp
    · simp
      omega
  | succ j =>
    rw [Nat.testBit_add_one]
    have hb : b.toNat < 2 := by cases b <;> simp
    have e : (2 * v + b.toNat) / 2 = v := by omega
    simp [e]

theorem foldr_step_testBit (k g : Nat) :
    ∀ (rs : List Bool) (i : Nat), rs ≠ [] →
      (rs.foldr (fun b v => (2 * v + b.toNat) % 2 ^ k) g).testBit i =
        (decide (i < k) && (match rs[i]? with
          | some b => b
          | none => g.testBit (i - rs.length))) := by
  intro rs
  induction rs with
  | nil => intro i h; exact absurd rfl h
  | cons b rs ih =>
    intro i _
    rw [List.foldr_cons, step_testBit]
    cases i with
    | zero => simp
    | succ j =>
      by_cases hk : j + 1 < k
      · have hjk : j < k := by omega
        simp only [hk, decide_True, Bool.true_and, Nat.add_one_ne_zero, if_false,
          Nat.add_sub_cancel, List.getElem?_cons_succ, List.length_cons]
        cases rs with
        | nil => simp
        | cons b' rs' =>
          rw [ih j (by simp)]
          simp only [hjk, decide_True, Bool.true_and, List.length_cons]
          have e : j + 1 - (rs'.length + 1 + 1) = j - (rs'.length + 1) := by omega
          rw [e]
      · simp [hk]

theorem shiftIn_congr {s s' : CorrPredictor}
    (h : s'.globalHistoryMask = s.globalHistoryMask) : shiftIn s' = shiftIn s := by
  funext g b
  simp only [shiftIn, h]

theorem foldl_shiftIn_testBit (s : CorrPredictor) (k : Nat) (hk : k ≤ 32)
    (hmask : s.globalHistoryMask = 2 ^ k - 1) (g : Nat) (bs : List Bool) (i : Nat)
    (hne : bs ≠ []) (hlen : k ≤ bs.length) :
    (bs.foldl (shiftIn s) g).testBit i = (decide (i < k) && (bs.reverse[i]?).getD false) := by
  have e : shiftIn s = fun v b => (2 * v + b.toNat) % 2 ^ k := by
    funext v b
    exact shiftIn_eq_mod s v b k hk hmask
  have hfold : bs.foldl (shiftIn s) g
      = bs.reverse.foldr (fun b v => (2 * v + b.toNat) % 2 ^ k) g := by
    rw [List.foldr_reverse, e]
  have hne' : bs.reverse ≠ [] := by simpa using hne
  rw [hfold, foldr_step_testBit k g bs.reverse i hne']
  by_cases hik : i < k
  · have hil : i < bs.reverse.length := by rw [List.length_reverse]; omega
    rw [List.getElem?_eq_getElem hil]
    simp
  · simp [hik]

theorem runCalls_advance (tid : Nat) :
    ∀ (cs : List Call) (s : CorrPredictor) (g : Nat),
      s.globalHistory[tid]? = some g → (∀ c ∈ cs, c.isAdvanceOn tid = true) →
      ∃ s', runCalls s cs = .ok s' ∧
        s'.globalHistory[tid]? = some ((cs.map Call.outcome).foldl (shiftIn s) g) ∧
        s'.globalHistoryMask = s.globalHistoryMask ∧ s'.m = s.m ∧
        s'.localPredictors = s.localPredictors := by
  intro cs
  induction cs with
  | nil =>
    intro s g hg _
    exact ⟨s, rfl, hg, rfl, rfl, rfl⟩
  | cons c cs ih =>
    intro s g hg hall
    have hc := hall c (List.mem_cons_self _ _)
    have hrest : ∀ c' ∈ cs, c'.isAdvanceOn tid = true :=
      fun c' hc' => hall c' (List.mem_cons_of_mem _ hc')
    cases c with
    | lookup t pc => simp [Call.isAdvanceOn] at hc
    | update t pc taken h squashed target => simp [Call.isAdvanceOn] at hc
    | squash t h => simp [Call.isAdvanceOn] at hc
    | updateHistories t pc uncond taken target h =>
      simp only [Call.isAdvanceOn, Bool.and_eq_true, beq_iff_eq, Bool.or_eq_true] at hc
      obtain ⟨rfl, hassert⟩ := hc
      have hrec : uncond = true ∨ h ≠ none := by
        rcases hassert with hu | hh
        · exact Or.inl hu
        · right
          intro hnone
          rw [hnone] at hh
          simp at hh
      have ht : t < s.globalHistory.length := (List.getElem?_eq_some.1 hg).1
      have hg1 : (s.globalHistory.set t (shiftIn s g taken))[t]?
          = some (shiftIn s g taken) := List.getElem?_set_self ht
      obtain ⟨s', hrun, hv, hm1, hm2, htab⟩ :=
        ih { s with globalHistory := s.globalHistory.set t (shiftIn s g taken),
                    newCount := if uncond then s.newCount + 1 else s.newCount }
          (shiftIn s g taken) hg1 hrest
      refine ⟨s', ?_, ?_, hm1, hm2, htab⟩
      · simp only [runCalls, Call.apply, updateHistories_eq s t pc uncond taken target h hg hrec]
        exact hrun
      · rw [hv]
        rfl

/-- C16, as stated, fails: on the predictor constructed with `m = 1` a single advance
with outcome taken leaves the register at 0, whose bit 0 is not the outcome bit. -/
theorem single_advance_m_one_drops_outcome :
    construct { numThreads := 1, instShiftAmt := 2, nLocalPredictors := 2, m := 1, n := 2 }
      = Construction.completed example212 ∧
    ∃ s' h' v, updateHistories example212 0 4096 true true 0 none = .ok (s', h') ∧
      s'.globalHistory[0]? = some v ∧ v = 0 ∧ v.testBit 0 ≠ true :=
  ⟨construct_example212, _, _, _, rfl, rfl, rfl, by decide⟩

theorem history_fifo_nonempty (s : CorrPredictor) (tid : Nat) (cs : List Call)
    (hk : s.m - 1 ≤ 32) (hmask : s.globalHistoryMask = 2 ^ (s.m - 1) - 1)
    (ht : tid < s.globalHistory.length)
    (hcs : ∀ c ∈ cs, c.isAdvanceOn tid = true)
    (hne : cs ≠ []) (hlen : s.m - 1 ≤ cs.length) :
    ∃ s' v, runCalls s cs = .ok s' ∧ s'.globalHistory[tid]? = some v ∧
      (∀ i, v.testBit i =
        (decide (i < s.m - 1) && ((cs.map Call.outcome).reverse[i]?).getD false)) := by
  obtain ⟨g, hg⟩ : ∃ g, s.globalHistory[tid]? = some g :=
    ⟨_, List.getElem?_eq_getElem ht⟩
  have hbs : cs.map Call.outcome ≠ [] := by simpa using hne
  have hbl : s.m - 1 ≤ (cs.map Call.outcome).length := by simpa using hlen
  obtain ⟨s', hrun, hv, -, -, -⟩ := runCalls_advance tid cs s g hg hcs
  exact ⟨s', _, hrun, hv,
    fun i => foldl_shiftIn_testBit s (s.m - 1) hk hmask g _ i hbs hbl⟩

/-- C16, amended. For `m` in `[1,16]` and any sequence of `k ≥ m - 1` calls of
`updateHistories` on one thread with outcome bits `b_1, ..., b_k`, started from any
register value (for the empty sequence, which only `m = 1` admits: from a value below
`2^(m-1)`, as every register the code writes is): bit `i` of the register afterwards is
`b_(k-i)` for `0 ≤ i < m - 1`, all higher bits are 0, and the value is the same from any
other such starting value. After a single advance, bit 0 of the register is the outcome
bit just supplied when `m ≥ 2`; when `m = 1` the register is 0. -/
theorem history_is_fifo (s : CorrPredictor) (tid : Nat) (cs : List Call)
    (hm : 1 ≤ s.m ∧ s.m ≤ 16) (hmask : s.globalHistoryMask = 2 ^ (s.m - 1) - 1)
    (ht : tid < s.globalHistory.length)
    (hcs : ∀ c ∈ cs, c.isAdvanceOn tid = true)
    (hlen : s.m - 1 ≤ cs.length)
    (hstart : cs ≠ [] ∨ ∀ g ∈ s.globalHistory, g < 2 ^ (s.m - 1)) :
    (∃ s' v, runCalls s cs = .ok s' ∧ s'.globalHistory[tid]? = some v ∧
      (∀ i, i < s.m - 1 →
        (cs.map Call.outcome)[cs.length - 1 - i]? = some (v.testBit i)) ∧
      (∀ i, s.m - 1 ≤ i → v.testBit i = false) ∧
      (∀ s2 : CorrPredictor, s2.m = s.m → s2.globalHistoryMask = s.globalHistoryMask →
        tid < s2.globalHistory.length →
        (cs ≠ [] ∨ ∀ g ∈ s2.globalHistory, g < 2 ^ (s.m - 1)) →
        ∃ s2', runCalls s2 cs = .ok s2' ∧ s2'.globalHistory[tid]? = some v)) ∧
    (∀ pc uncond taken target h, (uncond = true ∨ h ≠ none) →
      ∃ s' h' v, updateHistories s tid pc uncond taken target h = .ok (s', h') ∧
        s'.globalHistory[tid]? = some v ∧
        (2 ≤ s.m → v.testBit 0 = taken) ∧ (s.m = 1 → v = 0)) := by
  have hk : s.m - 1 ≤ 32 := by omega
  obtain ⟨g, hg⟩ : ∃ g, s.globalHistory[tid]? = some g :=
    ⟨_, List.getElem?_eq_getElem ht⟩
  constructor
  · by_cases hne : cs = []
    · subst hne
      have hm1 : s.m - 1 = 0 := by simpa using hlen
      have hzero : ∀ (s2 : CorrPredictor) (g2 : Nat), s2.globalHistory[tid]? = some g2 →
          (([] : List Call) ≠ [] ∨ ∀ g ∈ s2.globalHistory, g < 2 ^ (s.m - 1)) →
          g2 = 0 := by
        intro s2 g2 hg2 h2
        rcases h2 with h2 | h2
        · exact absurd rfl h2
        · have := h2 g2 (List.getElem?_mem hg2)
          rw [hm1] at this
          omega
      have hg0 : g = 0 := hzero s g hg hstart
      subst hg0
      refine ⟨s, 0, rfl, hg, ?_, ?_, ?_⟩
      · intro i hi
        omega
      · intro i _
        exact Nat.zero_testBit i
      · intro s2 _ _ ht2 h2
        obtain ⟨g2, hg2⟩ : ∃ g2, s2.globalHistory[tid]? = some g2 :=
          ⟨_, List.getElem?_eq_getElem ht2⟩
        have := hzero s2 g2 hg2 h2
        subst this
        exact ⟨s2, rfl, hg2⟩
    · obtain ⟨s', v, hrun, hv, hbits⟩ :=
        history_fifo_nonempty s tid cs hk hmask ht hcs hne hlen
      refine ⟨s', v, hrun, hv, ?_, ?_, ?_⟩
      · intro i hi
        have hil : i < (cs.map Call.outcome).length := by
          rw [List.length_map]
          omega
        have hidx : cs.length - 1 - i < (cs.map Call.outcome).length := by
          rw [List.length_map]
          omega
        rw [hbits i, List.getElem?_reverse hil, List.length_map]
        rw [List.getElem?_eq_getElem hidx]
        simp [hi]
      · intro i hi
        have : ¬ i < s.m - 1 := by omega
        rw [hbits i]
        simp [this]
      · intro s2 hm2 hmask2 ht2 _
        obtain ⟨s2', v2, hrun2, hv2, hbits2⟩ :=
          history_fifo_nonempty s2 tid cs (by rw [hm2]; exact hk)
            (by rw [hm2, hmask2]; exact hmask) ht2 hcs hne (by rw [hm2]; exact hlen)
        refine ⟨s2', hrun2, ?_⟩
        rw [hv2]
        congr 1
        apply Nat.eq_of_testBit_eq
        intro i
        rw [hbits2 i, hbits i, hm2]
  · intro pc uncond taken target h hrec
    refine ⟨_, _, shiftIn s g taken,
      updateHistories_eq s tid pc uncond taken target h hg hrec,
      List.getElem?_set_self ht, ?_, ?_⟩
    · intro h2
      rw [shiftIn_eq_mod s g taken (s.m - 1) hk hmask, step_testBit]
      have : 0 < s.m - 1 := by omega
      simp [this]
    · intro h1
      rw [shiftIn_eq_mod s g taken (s.m - 1) hk hmask, h1]
      exact Nat.mod_one _

/-! ## The address hash -/

theorem construct_example432 :
    construct { numThreads := 1, instShiftAmt := 2, nLocalPredictors := 4, m := 3, n := 2 }
      = Construction.completed example432 := by
  decide

/-- In a well-formed state the row index is the shifted address reduced modulo half the
number of rows. -/
theorem rowIndex_eq_mod_half (s : CorrPredictor) (hs : WellFormed s) (pc : Nat) :
    rowIndex s pc = (pc >>> s.instShiftAmt) % (s.nLocalPredictors / 2) ∧
    rowIndex s pc < s.nLocalPredictors / 2 := by
  obtain ⟨-, -, ⟨hp, h2, -⟩, -, -, -, -, -, -, hmask⟩ := hs
  have hN := pow_floorLog2_of_isPowerOf2 hp
  have hl := (one_le_floorLog2_iff hp).2 h2
  have hhalf : s.nLocalPredictors / 2
      = 2 ^ (floorLog2 s.nLocalPredictors s.nLocalPredictors - 1) := by
    have e : (floorLog2 s.nLocalPredictors s.nLocalPredictors - 1) + 1
        = floorLog2 s.nLocalPredictors s.nLocalPredictors := by omega
    have e2 : s.nLocalPredictors
        = 2 ^ (floorLog2 s.nLocalPredictors s.nLocalPredictors - 1) * 2 := by
      rw [← Nat.pow_succ, Nat.succ_eq_add_one, e]
      exact hN.symm
    omega
  have e : rowIndex s pc = (pc >>> s.instShiftAmt) % (s.nLocalPredictors / 2) := by
    unfold rowIndex
    rw [hmask, Nat.and_pow_two_sub_one_eq_mod, hhalf]
  refine ⟨e, ?_⟩
  rw [e]
  exact Nat.mod_lt _ (by rw [hhalf]; exact Nat.two_pow_pos _)

/-- C18, on the code: on the predictor constructed with two rows the address `pc = 4`
(shifted value 1) selects row 0 although `1 mod 2 = 1`, and no address selects row 1; on
the predictor constructed with four rows the addresses with shifted values 1 and 3, which
differ modulo 4, select the same row. -/
theorem row_hash_uses_half_the_rows :
    construct { numThreads := 1, instShiftAmt := 2, nLocalPredictors := 2, m := 3, n := 2 }
      = Construction.completed example232 ∧
    rowIndex example232 4 = 0 ∧
    (4 >>> example232.instShiftAmt) % example232.nLocalPredictors = 1 ∧
    (∀ pc, rowIndex example232 pc ≠ 1) ∧
    construct { numThreads := 1, instShiftAmt := 2, nLocalPredictors := 4, m := 3, n := 2 }
      = Construction.completed example432 ∧
    (4 >>> example432.instShiftAmt) % example432.nLocalPredictors ≠
      (12 >>> example432.instShiftAmt) % example432.nLocalPredictors ∧
    rowIndex example432 4 = rowIndex example432 12 := by
  refine ⟨construct_example232, by decide, by decide, ?_, construct_example432, by decide,
    by decide⟩
  intro pc
  simp [rowIndex, example232]

/-! ## Table indexing along a run -/

theorem updateHistories_m_eq {s s' : CorrPredictor} {tid pc : Nat} {uncond taken : Bool}
    {target : Nat} {h h' : Option BPHistory}
    (e : updateHistories s tid pc uncond taken target h = .ok (s', h')) :
    s'.m = s.m ∧ s'.numThreads = s.numThreads := by
  unfold updateHistories at e
  split at e
  · cases e
  · split at e
    · cases e
    · simp only [Except.ok.injEq, Prod.mk.injEq] at e
      obtain ⟨rfl, -⟩ := e
      exact ⟨rfl, rfl⟩

theorem squash_m_eq {s s' : CorrPredictor} {tid : Nat} {h h' : Option BPHistory}
    (e : squash s tid h = .ok (s', h')) : s'.m = s.m ∧ s'.numThreads = s.numThreads := by
  unfold squash at e
  split at e
  · cases e
  · split at e
    · simp only [Except.ok.injEq, Prod.mk.injEq] at e
      obtain ⟨rfl, -⟩ := e
      exact ⟨rfl, rfl⟩
    · cases e

theorem update_m_eq {s s' : CorrPredictor} {tid pc : Nat} {taken squashed : Bool}
    {target : Nat} {h h' : Option BPHistory}
    (e : update s tid pc taken h squashed target = .ok (s', h')) :
    s'.m = s.m ∧ s'.numThreads = s.numThreads := by
  unfold update at e
  split at e
  · cases e
  · split at e
    · split at e
      · simp only [Except.ok.injEq, Prod.mk.injEq] at e
        obtain ⟨rfl, -⟩ := e
        exact ⟨rfl, rfl⟩
      · cases e
    · split at e
      · split at e
        · cases e
        · split at e
          · cases e
          · simp only [Except.ok.injEq, Prod.mk.injEq] at e
            obtain ⟨rfl, -⟩ := e
            exact ⟨rfl, rfl⟩
      · simp only [Except.ok.injEq, Prod.mk.injEq] at e
        obtain ⟨rfl, -⟩ := e
        exact ⟨rfl, rfl⟩

theorem uncond_record_lt {s s' : CorrPredictor} (hs : WellFormed s) {tid pc : Nat}
    {taken : Bool} {target : Nat} {h : Option BPHistory} {r : BPHistory}
    (e : updateHistories s tid pc true taken target h = .ok (s', some r)) :
    r.globalHistoryValue < 2 ^ (s.m - 1) := by
  unfold updateHistories at e
  split at e
  · cases e
  · split at e
    · cases e
    · rename_i g hg
      simp only [Except.ok.injEq, Prod.mk.injEq, if_true, Option.some.injEq] at e
      obtain ⟨-, rfl⟩ := e
      exact hs.2.2.2.2.2.2.1 g (List.getElem?_mem hg)

/-- Along every run from a well-formed state in which the records passed in were handed
out earlier, the state stays well formed and every record handed out names a column of
the table. -/
theorem run_invariant {s0 s : CorrPredictor} {recs : List BPHistory}
    (h0 : WellFormed s0) (hrun : Run s0 s recs) :
    WellFormed s ∧ s.m = s0.m ∧ ∀ r ∈ recs, r.globalHistoryValue < 2 ^ (s0.m - 1) := by
  induction hrun with
  | start => exact ⟨h0, rfl, fun r hr => by cases hr⟩
  | lookup _ _ e ih =>
    obtain ⟨hwf, hm, hrecs⟩ := ih
    refine ⟨lookup_wellFormed hwf e, ?_, ?_⟩
    · rw [lookup_ok_form e]
      exact hm
    · intro r' hr'
      rcases List.mem_cons.1 hr' with rfl | hmem
      · rw [← hm]
        exact lookup_record_lt hwf e
      · exact hrecs r' hmem
  | uncond _ _ e ih =>
    obtain ⟨hwf, hm, hrecs⟩ := ih
    refine ⟨updateHistories_wellFormed hwf e, (updateHistories_m_eq e).1.trans hm, ?_⟩
    intro r' hr'
    rcases List.mem_cons.1 hr' with rfl | hmem
    · rw [← hm]
      exact uncond_record_lt hwf e
    · exact hrecs r' hmem
  | cond _ _ _ e ih =>
    obtain ⟨hwf, hm, hrecs⟩ := ih
    exact ⟨updateHistories_wellFormed hwf e, (updateHistories_m_eq e).1.trans hm, hrecs⟩
  | update _ _ _ e ih =>
    obtain ⟨hwf, hm, hrecs⟩ := ih
    exact ⟨update_wellFormed hwf e, (update_m_eq e).1.trans hm, hrecs⟩
  | squash _ _ hmem e ih =>
    obtain ⟨hwf, hm, hrecs⟩ := ih
    have hcol := hrecs _ hmem
    rw [← hm] at hcol
    exact ⟨squash_wellFormed hwf hcol e, (squash_m_eq e).1.trans hm, hrecs⟩

/-- For every configuration on which the constructor completes (a power of two from 2
to 65536 rows), along every run with thread ids below `numThreads` and records handed out
earlier: every history register and every record handed out is below the row size
`2^(m-1)`, the row index of every `pc` is below `nLocalPredictors`, and the table reads
of `lookup` and the table writes of `update` are inside the table. -/
theorem run_in_bounds {p : CorrPredictorParams} {s0 s : CorrPredictor}
    {recs : List BPHistory} (h0 : construct p = .completed s0) (hrun : Run s0 s recs) :
    (∀ g ∈ s.globalHistory, g < 2 ^ (s.m - 1)) ∧
    (∀ r ∈ recs, r.globalHistoryValue < 2 ^ (s.m - 1)) ∧
    (∀ pc, rowIndex s pc < s.nLocalPredictors) ∧
    (∀ tid pc, tid < s.numThreads → ∃ b s' h', lookup s tid pc = .ok (b, s', h')) ∧
    (∀ tid pc taken target, ∀ r ∈ recs,
      ∃ s' h', update s tid pc taken (some r) false target = .ok (s', h')) := by
  obtain ⟨hwf, hm, hrecs⟩ := run_invariant (construct_wellFormed h0) hrun
  refine ⟨hwf.2.2.2.2.2.2.1, ?_, rowIndex_lt s hwf, ?_, ?_⟩
  · intro r hr
    rw [hm]
    exact hrecs r hr
  · intro tid pc ht
    obtain ⟨b, s', r, hl, -⟩ := lookup_frame s hwf tid pc ht
    exact ⟨b, s', some r, hl⟩
  · intro tid pc taken target r hr
    have hcol : r.globalHistoryValue < 2 ^ (s.m - 1) := by
      rw [hm]
      exact hrecs r hr
    obtain ⟨s', hs', -⟩ := record_release_aux s hwf tid pc taken r target hcol
    exact ⟨s', none, hs'⟩

/-- C19, on the code: `nLocalPredictors = 1` passes every check of the constructor, but
the initialiser of `addressHashMask` evaluates `1 << (log2(1) - 1)`, a shift outside its
range, whatever `m` and `n`; and on a single row any mask other than 0 sends some `pc` to
a row outside the table. -/
theorem single_row_mask_undefined :
    fatalCheck 1 3 2 = none ∧
    (∀ numThreads instShiftAmt m n,
      construct { numThreads := numThreads, instShiftAmt := instShiftAmt,
                  nLocalPredictors := 1, m := m, n := n }
        = Construction.undefinedShift) ∧
    (∀ k, rowIndex (singleRow (k + 1)) ((k + 1) <<< 2) = k + 1 ∧
      lookup (singleRow (k + 1)) 0 ((k + 1) <<< 2) = .error .outOfRange) := by
  refine ⟨by decide, ?_, ?_⟩
  · intro numThreads instShiftAmt m n
    have h3 : (log2Unsigned 1).bind (fun l => shlOne ((l : Int) - 1)) = none := by decide
    unfold construct
    simp only [h3]
    cases shlOne ((m : Int) - 1) <;> cases shlOne ((n : Int) - 1) <;> rfl
  · intro k
    have hrow : rowIndex (singleRow (k + 1)) ((k + 1) <<< 2) = k + 1 := by
      simp only [rowIndex, singleRow, Nat.shiftLeft_shiftRight, Nat.and_self]
    refine ⟨hrow, ?_⟩
    have hc : counterAt (singleRow (k + 1)) (k + 1) 0 = none := by
      simp [counterAt, singleRow]
    have hg : (singleRow (k + 1)).globalHistory[0]? = some 0 := rfl
    simp only [lookup, hg, hrow, hc]

/-! ## Squashing the oldest branch in flight -/

theorem run_speculative (tid : Nat) :
    ∀ (cs : List Call) (s : CorrPredictor), WellFormed s → tid < s.numThreads →
      (∀ c ∈ cs, c.isSpeculativeOn tid = true) →
      ∃ s', runCalls s cs = .ok s' ∧ WellFormed s' ∧
        s'.localPredictors = s.localPredictors ∧ s'.numThreads = s.numThreads := by
  intro cs
  induction cs with
  | nil =>
    intro s hs _ _
    exact ⟨s, rfl, hs, rfl, rfl⟩
  | cons c cs ih =>
    intro s hs ht hall
    have hc := hall c (List.mem_cons_self _ _)
    have hrest : ∀ c' ∈ cs, c'.isSpeculativeOn tid = true :=
      fun c' hc' => hall c' (List.mem_cons_of_mem _ hc')
    cases c with
    | update t pc taken h squashed target => simp [Call.isSpeculativeOn] at hc
    | squash t h => simp [Call.isSpeculativeOn] at hc
    | lookup t pc =>
      simp only [Call.isSpeculativeOn, beq_iff_eq] at hc
      subst hc
      obtain ⟨b, s1, r, hl, htab, -, hs1⟩ := lookup_frame s hs t pc ht
      have hwf1 := lookup_wellFormed hs hl
      have hnt : s1.numThreads = s.numThreads := by rw [hs1]
      obtain ⟨s', hrun, hwf, htab', hnt'⟩ := ih s1 hwf1 (by rw [hnt]; exact ht) hrest
      refine ⟨s', ?_, hwf, htab'.trans htab, hnt'.trans hnt⟩
      simp only [runCalls, Call.apply, hl]
      exact hrun
    | updateHistories t pc uncond taken target h =>
      simp only [Call.isSpeculativeOn, Bool.and_eq_true, beq_iff_eq, Bool.or_eq_true] at hc
      obtain ⟨rfl, hassert⟩ := hc
      have hrec : uncond = true ∨ h ≠ none := by
        rcases hassert with hu | hh
        · exact Or.inl hu
        · right
          intro hnone
          rw [hnone] at hh
          simp at hh
      obtain ⟨g, hg, -⟩ := history_of_lt s hs ht
      have he := updateHistories_eq s t pc uncond taken target h hg hrec
      have hwf1 := updateHistories_wellFormed hs he
      obtain ⟨s', hrun, hwf, htab', hnt'⟩ := ih _ hwf1 ht hrest
      refine ⟨s', ?_, hwf, htab', hnt'⟩
      simp only [runCalls, Call.apply, he]
      exact hrun

/-- C20. Squashing the oldest branch in flight undoes all speculative history: from a
well-formed state `s`, when `lookup(tid, pc)` yields the record `r` and is followed by
`updateHistories` (conditional, with `r`) and then by any finite number of further
`lookup` and `updateHistories` calls on thread `tid`, `squash(tid, r)` leaves
`globalHistory[tid]` equal to its value in `s` and the whole local predictor table equal
to the table of `s`. -/
theorem squash_undoes_speculation (s : CorrPredictor) (hs : WellFormed s) (tid pc : Nat)
    (taken : Bool) (target : Nat) (cs : List Call) (ht : tid < s.numThreads)
    (hcs : ∀ c ∈ cs, c.isSpeculativeOn tid = true) :
    ∃ b s1 r s2 h2 s3 s4,
      lookup s tid pc = .ok (b, s1, some r) ∧
      updateHistories s1 tid pc false taken target (some r) = .ok (s2, h2) ∧
      runCalls s2 cs = .ok s3 ∧
      squash s3 tid (some r) = .ok (s4, none) ∧
      s4.globalHistory[tid]? = s.globalHistory[tid]? ∧
      s4.localPredictors = s.localPredictors := by
  obtain ⟨g, hg, hglt⟩ := history_of_lt s hs ht
  obtain ⟨row, c, -, -, hc, -, -⟩ := counterAt_of_lt s hs (rowIndex_lt s hs pc) hglt
  have hl : lookup s tid pc =
      .ok (decide (c.counter > s.localPredictorThreshold),
        { s with newCount := s.newCount + 1 },
        some { globalHistoryValue := g, localHistoryValue := some c.counter,
               updateLocalPredictor := true }) := by
    simp only [lookup, hg, hc]
  have hwf1 := lookup_wellFormed hs hl
  have he := updateHistories_eq { s with newCount := s.newCount + 1 } tid pc false taken
    target (some { globalHistoryValue := g, localHistoryValue := some c.counter,
                   updateLocalPredictor := true }) hg (Or.inr (by simp))
  have hwf2 := updateHistories_wellFormed hwf1 he
  obtain ⟨s3, hrun, hwf3, htab3, hnt3⟩ := run_speculative tid cs _ hwf2 ht hcs
  have ht3 : tid < s3.globalHistory.length := by
    rw [threads_eq s3 hwf3, hnt3]
    exact ht
  refine ⟨_, _, _, _, _, s3, _, hl, he, hrun, squash_eq s3 _ ht3, ?_, ?_⟩
  · rw [hg]
    exact List.getElem?_set_self ht3
  · exact htab3

/-! ## The later properties at concrete predictors -/

theorem advance_in_range_witness :
    (1 ≤ example232.m ∧ example232.m ≤ 16) ∧
    example232.globalHistoryMask = 2 ^ (example232.m - 1) - 1 ∧
    0 < example232.globalHistory.length ∧
    (true = true ∨ (none : Option BPHistory) ≠ none) ∧
    ∃ s' h' v,
      updateHistories example232 0 4096 true true 0 none = .ok (s', h') ∧
      s'.globalHistory[0]? = some v ∧ 0 ≤ v ∧ v ≤ 2 ^ (example232.m - 1) - 1 :=
  ⟨by decide, by decide, by decide, Or.inl rfl,
    advance_in_range example232 0 4096 true true 0 none (by decide) (by decide)
      (by decide) (Or.inl rfl)⟩

theorem counters_stay_in_range_witness :
    construct { numThreads := 1, instShiftAmt := 2, nLocalPredictors := 2, m := 3, n := 2 }
      = Construction.completed example232 ∧
    runCalls example232 [Call.update 0 4096 true (some exampleRecord) false 0]
      = .ok example232Taken ∧
    ((1 ≤ example232Taken.n ∧ example232Taken.n ≤ 16) ∧
      ∀ i j c, counterAt example232Taken i j = some c →
        0 ≤ c.counter ∧ c.counter ≤ 2 ^ example232Taken.n - 1) ∧
    (∃ s3, runCalls example232
        (List.replicate 3 (Call.update 0 4096 false (some exampleRecord) false 0)) = .ok s3 ∧
      counterAt example232 0 0 = some { bits := 2, counter := 0 } ∧
      counterAt s3 0 0 = some { bits := 2, counter := 0 }) ∧
    (∃ s5, runCalls example232
        (List.replicate 5 (Call.update 0 4096 true (some exampleRecord) false 0)) = .ok s5 ∧
      counterAt s5 0 0 = some { bits := 2, counter := 3 }) :=
  ⟨by decide, rfl,
    counters_stay_in_range
      { numThreads := 1, instShiftAmt := 2, nLocalPredictors := 2, m := 3, n := 2 }
      example232 example232Taken
      [Call.update 0 4096 true (some exampleRecord) false 0] (by decide) rfl⟩

theorem null_record_asserted_witness :
    WellFormed example232 ∧ 0 < example232.numThreads ∧
    exampleRecord.globalHistoryValue < 2 ^ (example232.m - 1) ∧
    update example232 0 4096 true none false 0 = .error .assertion ∧
    squash example232 0 none = .error .assertion ∧
    updateHistories example232 0 4096 false true 0 none = .error .assertion ∧
    (∃ s' h', update example232 0 4096 true (some exampleRecord) false 0 = .ok (s', h')) ∧
    (∃ s' h', squash example232 0 (some exampleRecord) = .ok (s', h')) ∧
    (∃ s' h', updateHistories example232 0 4096 false true 0 (some exampleRecord)
      = .ok (s', h')) ∧
    (∀ h, ∃ s' h', updateHistories example232 0 4096 true true 0 h = .ok (s', h')) :=
  ⟨by decide, by decide, by decide,
    null_record_asserted example232 (by decide) 0 4096 true false 0 exampleRecord
      (by decide) (by decide)⟩

theorem other_threads_untouched_witness :
    WellFormed example232x2 ∧ 0 < example232x2.numThreads ∧ (0 : Nat) ≠ 1 ∧
    (∀ pc b s' h', lookup example232x2 0 pc = .ok (b, s', h') →
      s'.globalHistory[1]? = example232x2.globalHistory[1]?) ∧
    (∀ pc uncond taken target h s' h',
      updateHistories example232x2 0 pc uncond taken target h = .ok (s', h') →
      s'.globalHistory[1]? = example232x2.globalHistory[1]?) ∧
    (∀ pc taken h squashed target s' h',
      update example232x2 0 pc taken h squashed target = .ok (s', h') →
      s'.globalHistory[1]? = example232x2.globalHistory[1]?) ∧
    (∀ h s' h', squash example232x2 0 h = .ok (s', h') →
      s'.globalHistory[1]? = example232x2.globalHistory[1]?) ∧
    (∀ pc taken squashed target r, r.globalHistoryValue < 2 ^ (example232x2.m - 1) →
      (∃ b s' h', lookup example232x2 0 pc = .ok (b, s', h')) ∧
      (∃ s' h', updateHistories example232x2 0 pc false taken target (some r)
        = .ok (s', h')) ∧
      (∃ s' h', updateHistories example232x2 0 pc true taken target none = .ok (s', h')) ∧
      (∃ s' h', update example232x2 0 pc taken (some r) squashed target = .ok (s', h')) ∧
      (∃ s' h', squash example232x2 0 (some r) = .ok (s', h'))) :=
  ⟨by decide, by decide, by decide,
    other_threads_untouched example232x2 (by decide) 0 1 (by decide) (by decide)⟩

theorem history_is_fifo_witness :
    (1 ≤ example232.m ∧ example232.m ≤ 16) ∧
    example232.globalHistoryMask = 2 ^ (example232.m - 1) - 1 ∧
    0 < example232.globalHistory.length ∧
    (∀ c ∈ exampleAdvances, c.isAdvanceOn 0 = true) ∧
    example232.m - 1 ≤ exampleAdvances.length ∧
    (exampleAdvances ≠ [] ∨ ∀ g ∈ example232.globalHistory, g < 2 ^ (example232.m - 1)) ∧
    (∃ s' v, runCalls example232 exampleAdvances = .ok s' ∧
      s'.globalHistory[0]? = some v ∧
      (∀ i, i < example232.m - 1 →
        (exampleAdvances.map Call.outcome)[exampleAdvances.length - 1 - i]?
          = some (v.testBit i)) ∧
      (∀ i, example232.m - 1 ≤ i → v.testBit i = false) ∧
      (∀ s2 : CorrPredictor, s2.m = example232.m →
        s2.globalHistoryMask = example232.globalHistoryMask →
        0 < s2.globalHistory.length →
        (exampleAdvances ≠ [] ∨ ∀ g ∈ s2.globalHistory, g < 2 ^ (example232.m - 1)) →
        ∃ s2', runCalls s2 exampleAdvances = .ok s2' ∧ s2'.globalHistory[0]? = some v)) ∧
    (∀ pc uncond taken target h, (uncond = true ∨ h ≠ none) →
      ∃ s' h' v, updateHistories example232 0 pc uncond taken target h = .ok (s', h') ∧
        s'.globalHistory[0]? = some v ∧
        (2 ≤ example232.m → v.testBit 0 = taken) ∧ (example232.m = 1 → v = 0)) :=
  ⟨by decide, by decide, by decide, by decide, by decide, Or.inl (by decide),
    history_is_fifo example232 0 exampleAdvances (by decide) (by decide) (by decide)
      (by decide) (by decide) (Or.inl (by decide))⟩

theorem squash_undoes_speculation_witness :
    WellFormed example232 ∧ 0 < example232.numThreads ∧
    (∀ c ∈ exampleSpeculation, c.isSpeculativeOn 0 = true) ∧
    ∃ b s1 r s2 h2 s3 s4,
      lookup example232 0 4096 = .ok (b, s1, some r) ∧
      updateHistories s1 0 4096 false true 0 (some r) = .ok (s2, h2) ∧
      runCalls s2 exampleSpeculation = .ok s3 ∧
      squash s3 0 (some r) = .ok (s4, none) ∧
      s4.globalHistory[0]? = example232.globalHistory[0]? ∧
      s4.localPredictors = example232.localPredictors :=
  ⟨by decide, by decide, by decide,
    squash_undoes_speculation example232 (by decide) 0 4096 true 0 exampleSpeculation
      (by decide) (by decide)⟩

end CorrPred
